import Mathlib

/-!
Verification of the streaming digest engines of `crypto/md5` and
`crypto/sha256` (Go 1.16.4 sources with comments).

The per-algorithm compression function (`block` / `blockGeneric`) lives
outside the two source files; it is an external collaborator operating on
(state vector, one or more 64-byte blocks).  All definitions below are
therefore parameterized by an arbitrary compression function
`f : List Nat → List Nat → List Nat` mapping a state vector and a single
64-byte block to a new state vector; `blockRun` models the `block` entry
point, which consumes its argument 64 bytes at a time.

Byte strings are modelled as `List Nat` (each entry a byte value),
machine integers as `Nat` with explicit `% 2 ^ 64` where the Go code uses
`uint64` arithmetic.
-/

set_option maxRecDepth 4000

namespace Hash

/-- The common digest state of `md5.digest` (fields `s`, `x`, `nx`, `len`)
and the corresponding four fields (`h`, `x`, `nx`, `len`) of
`sha256.digest`.  `s` is the state vector, `x` the 64-byte partial-block
buffer, `nx` the buffer fill count, `len` the running total byte count
(a `uint64`). -/
structure Core where
  s : List Nat
  x : List Nat
  nx : Nat
  len : Nat
deriving DecidableEq, Repr

/-- Iterated compression: apply `f` to `k` consecutive 64-byte chunks of `p`. -/
def blocksGo (f : List Nat → List Nat → List Nat) : Nat → List Nat → List Nat → List Nat
  | 0, s, _ => s
  | k + 1, s, p => blocksGo f k (f s (p.take 64)) (p.drop 64)

/-- The `block(dig, p)` entry point: compress every complete 64-byte block
of `p` into the state vector (`p` is always a whole number of blocks at
the call sites in `Write` and `checkSum`). -/
def blockRun (f : List Nat → List Nat → List Nat) (s p : List Nat) : List Nat :=
  blocksGo f (p.length / 64) s p

/-- Steps 2 and 3 of `(*digest).Write` (identical in md5.go lines 150-175
and sha256.go lines 201-234): compress all complete blocks directly from
the input (`n := len(p) &^ (BlockSize-1)`, i.e. `len(p) - len(p) % 64`),
then copy any remaining tail (necessarily shorter than a block) into the
buffer, setting `d.nx` to the number of bytes copied. -/
def writeTail (f : List Nat → List Nat → List Nat) (d : Core) (p : List Nat) : Core :=
  if 64 ≤ p.length then
    let n := p.length - p.length % 64
    let d2 : Core := { d with s := blockRun f d.s (p.take n) }
    let p2 := p.drop n
    if 0 < p2.length then
      { d2 with x := p2 ++ d2.x.drop p2.length, nx := p2.length }
    else d2
  else
    if 0 < p.length then
      { d with x := p ++ d.x.drop p.length, nx := p.length }
    else d

/-- `(*digest).Write` (md5.go lines 123-176, sha256.go lines 184-235; the
two bodies are line-for-line identical, with `haveAsm` selecting between
two behaviourally identical implementations of `block`).  The byte count
is updated first (`d.len += uint64(nn)`, 64-bit wrap-around); then, if the
buffer holds pending bytes, `copy(d.x[d.nx:], p)` transfers
`n = min(64 - d.nx, len(p))` bytes, compressing the buffer when it fills
(`d.nx == BlockSize`); the remaining input goes through `writeTail`. -/
def write (f : List Nat → List Nat → List Nat) (d : Core) (p : List Nat) : Core :=
  let dl : Core := { d with len := (d.len + p.length) % 2 ^ 64 }
  if 0 < d.nx then
    let n := min (64 - d.nx) p.length
    let x1 := d.x.take d.nx ++ p.take n ++ d.x.drop (d.nx + n)
    if d.nx + n = 64 then
      writeTail f { dl with s := blockRun f d.s x1, x := x1, nx := 0 } (p.drop n)
    else
      writeTail f { dl with x := x1, nx := d.nx + n } (p.drop n)
  else
    writeTail f dl p

/-- The return values `(nn, err)` of `(*digest).Write`: `nn` is set to
`len(p)` on entry and `err` is never assigned, so the function returns
`(len(p), nil)` unconditionally. -/
def writeRet (p : List Nat) : Nat × Option String := (p.length, none)

/-- `binary.LittleEndian.PutUint32`: the four bytes of a 32-bit word,
least significant first. -/
def le32 (v : Nat) : List Nat :=
  [v % 256, v / 256 % 256, v / 256 ^ 2 % 256, v / 256 ^ 3 % 256]

/-- `binary.BigEndian.PutUint32` / `appendUint32`: most significant byte first. -/
def be32 (v : Nat) : List Nat :=
  [v / 256 ^ 3 % 256, v / 256 ^ 2 % 256, v / 256 % 256, v % 256]

/-- `binary.LittleEndian.PutUint64`. -/
def le64 (v : Nat) : List Nat :=
  [v % 256, v / 256 % 256, v / 256 ^ 2 % 256, v / 256 ^ 3 % 256,
   v / 256 ^ 4 % 256, v / 256 ^ 5 % 256, v / 256 ^ 6 % 256, v / 256 ^ 7 % 256]

/-- `binary.BigEndian.PutUint64` / `appendUint64`. -/
def be64 (v : Nat) : List Nat :=
  [v / 256 ^ 7 % 256, v / 256 ^ 6 % 256, v / 256 ^ 5 % 256, v / 256 ^ 4 % 256,
   v / 256 ^ 3 % 256, v / 256 ^ 2 % 256, v / 256 % 256, v % 256]

/-- `binary.BigEndian.Uint32` on the first four bytes of `b`
(`b[0]<<24 | b[1]<<16 | b[2]<<8 | b[3]`, the shifted ranges being disjoint
for byte values). -/
def beVal32 (b : List Nat) : Nat :=
  b.getD 0 0 * 256 ^ 3 + b.getD 1 0 * 256 ^ 2 + b.getD 2 0 * 256 + b.getD 3 0

/-- `binary.BigEndian.Uint64` on the first eight bytes of `b`. -/
def beVal64 (b : List Nat) : Nat :=
  b.getD 0 0 * 256 ^ 7 + b.getD 1 0 * 256 ^ 6 + b.getD 2 0 * 256 ^ 5 +
  b.getD 3 0 * 256 ^ 4 + b.getD 4 0 * 256 ^ 3 + b.getD 5 0 * 256 ^ 2 +
  b.getD 6 0 * 256 + b.getD 7 0

/-- `consumeUint32`: `return b[4:], binary.BigEndian.Uint32(b[0:4])`.
The bounds check of the slicing / `_ = b[3]` panics when `b` is shorter
than four bytes; that divergence is modelled by `none`. -/
def consume32 (b : List Nat) : Option (List Nat × Nat) :=
  if 4 ≤ b.length then some (b.drop 4, beVal32 b) else none

/-- `consumeUint64`: `return b[8:], binary.BigEndian.Uint64(b[0:8])`,
with `none` for the out-of-bounds panic. -/
def consume64 (b : List Nat) : Option (List Nat × Nat) :=
  if 8 ≤ b.length then some (b.drop 8, beVal64 b) else none

/-- `binary.XxxEndian.PutUintNN(l[off:], v)`: overwrite the bytes of `l`
at offsets `off ..< off + len(bytes)` with `bytes`. -/
def putAt (l : List Nat) (off : Nat) (bytes : List Nat) : List Nat :=
  l.take off ++ bytes ++ l.drop (off + bytes.length)

/-- A state vector is sane for arity `A` when it has `A` words, each a
`uint32` value.  The `[4]uint32` / `[8]uint32` state arrays of the Go
digests always satisfy this. -/
def Sane (A : Nat) (s : List Nat) : Prop :=
  s.length = A ∧ ∀ i, s.getD i 0 < 2 ^ 32

/-- `d` is the state of a digest that has absorbed exactly the byte stream
`msg` since its last reset, for an engine with initial state vector `init`:
the state vector is the compression of all complete blocks, the buffer
prefix holds the trailing partial block, `nx` its length, and `len` the
total byte count modulo `2 ^ 64`.  The buffer bytes beyond `nx` are
unconstrained (the source never reads them). -/
structure Represents (f : List Nat → List Nat → List Nat) (init : List Nat)
    (d : Core) (msg : List Nat) : Prop where
  hs : d.s = blockRun f init (msg.take (msg.length - msg.length % 64))
  hx : d.x.length = 64
  hnx : d.nx = msg.length % 64
  hlen : d.len = msg.length % 2 ^ 64
  hbuf : d.x.take d.nx = msg.drop (msg.length - msg.length % 64)

/-- The buffer-fill invariant holding between calls on every reachable
digest state: the buffer is the fixed 64-byte array, the fill count is
strictly below the block size, and it equals the total byte count modulo
the block size. -/
def WF (d : Core) : Prop :=
  d.x.length = 64 ∧ d.nx < 64 ∧ d.nx = d.len % 64

end Hash

namespace MD5

/-- The MD5 initialization constants `init0 ..= init3` loaded by `Reset`. -/
def initState : List Nat := [0x67452301, 0xEFCDAB89, 0x98BADCFE, 0x10325476]

/-- `(*digest).Reset`: reload the initial state vector and zero `nx` and
`len`; the buffer contents are left as they are. -/
def Reset (d : Hash.Core) : Hash.Core :=
  { d with s := initState, nx := 0, len := 0 }

/-- `New()`: a zero `digest` struct (buffer all zero bytes) followed by `Reset`. -/
def New : Hash.Core :=
  Reset { s := List.replicate 4 0, x := List.replicate 64 0, nx := 0, len := 0 }

/-- The bytes of the state-blob tag `magic = "md5\x01"`. -/
def magicBytes : List Nat := [0x6d, 0x64, 0x35, 0x01]

/-- `marshaledSize = len(magic) + 4*4 + BlockSize + 8`. -/
def marshaledSize : Nat := 4 + 4 * 4 + 64 + 8

/-- `(*digest).MarshalBinary`: magic tag, the four state words big-endian,
the buffer prefix `d.x[:d.nx]` zero-extended to the full 64 bytes
(`b = b[:len(b)+len(d.x)-d.nx]` over zeroed capacity), then `d.len`
big-endian.  The `error` result is always `nil`. -/
def MarshalBinary (d : Hash.Core) : List Nat :=
  magicBytes ++
  Hash.be32 (d.s.getD 0 0) ++ Hash.be32 (d.s.getD 1 0) ++
  Hash.be32 (d.s.getD 2 0) ++ Hash.be32 (d.s.getD 3 0) ++
  (d.x.take d.nx ++ List.replicate (64 - d.nx) 0) ++
  Hash.be64 d.len

/-- Error message of a magic-tag mismatch. -/
def identMsg : String := "crypto/md5: invalid hash state identifier"

/-- Error message of a wrong blob length. -/
def sizeMsg : String := "crypto/md5: invalid hash state size"

/-- `(*digest).UnmarshalBinary`.  The result is the pair of the receiver
after the call and the returned error (`none` = `nil`); the outer `Option`
is `none` exactly when the body would panic (it never does: both guards
precede all slicing).  On the error paths the method returns before any
field assignment, so the receiver is handed back unchanged.  On success
`d.nx` is derived as `int(d.len % BlockSize)`. -/
def UnmarshalBinary (d : Hash.Core) (b : List Nat) :
    Option (Hash.Core × Option String) :=
  if b.length < 4 ∨ b.take 4 ≠ magicBytes then
    some (d, some identMsg)
  else if b.length ≠ marshaledSize then
    some (d, some sizeMsg)
  else do
    let (b1, s0) ← Hash.consume32 (b.drop 4)
    let (b2, s1) ← Hash.consume32 b1
    let (b3, s2) ← Hash.consume32 b2
    let (b4, s3) ← Hash.consume32 b3
    let k := min 64 b4.length
    let (_, l) ← Hash.consume64 (b4.drop k)
    some ({ s := [s0, s1, s2, s3], x := b4.take k ++ d.x.drop k,
            nx := l % 64, len := l }, none)

/-- The number of zero padding bytes, `pad := (55 - d.len) % 64` in
`uint64` arithmetic. -/
def padOf (n : Nat) : Nat := ((55 + 2 ^ 64 - n % 2 ^ 64) % 2 ^ 64) % 64

/-- The finalization slice `tmp[:1+pad+8]` pushed through `Write` by
`(*digest).checkSum`: `tmp := [1 + 63 + 8]byte{0x80}` with
`binary.LittleEndian.PutUint64(tmp[1+pad:], d.len<<3)` applied. -/
def tailSlice (n : Nat) : List Nat :=
  (Hash.putAt (0x80 :: List.replicate 71 0) (1 + padOf n)
    (Hash.le64 (n * 8 % 2 ^ 64))).take (1 + padOf n + 8)

/-- The digest-byte extraction at the end of `(*digest).checkSum`:
`var digest [Size]byte` then `binary.LittleEndian.PutUint32` of the four
state words at offsets 0, 4, 8, 12. -/
def digestOut (s : List Nat) : List Nat :=
  Hash.putAt (Hash.putAt (Hash.putAt (Hash.putAt (List.replicate 16 0)
    0 (Hash.le32 (s.getD 0 0))) 4 (Hash.le32 (s.getD 1 0)))
    8 (Hash.le32 (s.getD 2 0))) 12 (Hash.le32 (s.getD 3 0))

/-- `(*digest).checkSum`: push the padding-and-length slice through the
normal `Write` path, then extract the digest; `none` models the
`panic("d.nx != 0")` when the buffer is not empty afterwards. -/
def checkSum (f : List Nat → List Nat → List Nat) (d : Hash.Core) :
    Option (List Nat) :=
  let d1 := Hash.write f d (tailSlice d.len)
  if d1.nx ≠ 0 then none else some (digestOut d1.s)

/-- `(*digest).Sum(in)`: finalize a copy and append the digest to `in`. -/
def Sum (f : List Nat → List Nat → List Nat) (d : Hash.Core) (bin : List Nat) :
    Option (List Nat) :=
  (checkSum f d).map (fun h => bin ++ h)

/-- `(*digest).Sum(in)` as a state transformer on the receiver: the body
finalizes the structural copy `d0 := *d` only, never assigning to `*d`,
so the receiver after the call is the unchanged `d`. -/
def SumOp (f : List Nat → List Nat → List Nat) (d : Hash.Core) (bin : List Nat) :
    Option (List Nat) × Hash.Core :=
  (Sum f d bin, d)

/-- The digest states reachable through the exported API: `New`,
`Reset`, `Write`, `Sum` (which leaves the receiver unchanged), and a
successful `UnmarshalBinary`. -/
inductive Reachable (f : List Nat → List Nat → List Nat) : Hash.Core → Prop where
  | new : Reachable f New
  | reset (d : Hash.Core) : Reachable f d → Reachable f (Reset d)
  | write (d : Hash.Core) (p : List Nat) : Reachable f d → Reachable f (Hash.write f d p)
  | sum (d : Hash.Core) (bin : List Nat) : Reachable f d → Reachable f (SumOp f d bin).2
  | load (d d0 : Hash.Core) (b : List Nat) : Reachable f d →
      UnmarshalBinary d b = some (d0, none) → Reachable f d0

end MD5

namespace SHA256

/-- `sha256.digest`: the eight-word state vector `h`, the partial-block
buffer `x`, fill count `nx`, byte count `len`, and the SHA-224 variant
marker `is224`. -/
structure Digest where
  h : List Nat
  x : List Nat
  nx : Nat
  len : Nat
  is224 : Bool
deriving DecidableEq, Repr

/-- The four engine fields of a `sha256.digest`, on which `Write` operates. -/
def toCore (d : Digest) : Hash.Core := ⟨d.h, d.x, d.nx, d.len⟩

/-- SHA-256 initialization constants `init0 ..= init7`. -/
def init256 : List Nat :=
  [0x6A09E667, 0xBB67AE85, 0x3C6EF372, 0xA54FF53A,
   0x510E527F, 0x9B05688C, 0x1F83D9AB, 0x5BE0CD19]

/-- SHA-224 initialization constants `init0_224 ..= init7_224`. -/
def init224 : List Nat :=
  [0xC1059ED8, 0x367CD507, 0x3070DD17, 0xF70E5939,
   0xFFC00B31, 0x68581511, 0x64F98FA7, 0xBEFA4FA4]

/-- `(*digest).Reset`: load the variant's initial constants and zero `nx`
and `len`; `x` and `is224` are untouched. -/
def Reset (d : Digest) : Digest :=
  { d with h := if d.is224 then init224 else init256, nx := 0, len := 0 }

/-- `New()`: zero struct (`is224 = false`) then `Reset`. -/
def New : Digest :=
  Reset { h := List.replicate 8 0, x := List.replicate 64 0, nx := 0, len := 0,
          is224 := false }

/-- `New224()`: zero struct with `is224` set, then `Reset`. -/
def New224 : Digest :=
  Reset { h := List.replicate 8 0, x := List.replicate 64 0, nx := 0, len := 0,
          is224 := true }

/-- `(*digest).Write` for sha256: the body is line-for-line the body of
md5's `Write` (sha256.go lines 184-235), acting on the four engine fields
and leaving `is224` alone. -/
def write (f : List Nat → List Nat → List Nat) (d : Digest) (p : List Nat) : Digest :=
  let c := Hash.write f (toCore d) p
  { h := c.s, x := c.x, nx := c.nx, len := c.len, is224 := d.is224 }

/-- Bytes of `magic224 = "sha\x02"`. -/
def magic224 : List Nat := [0x73, 0x68, 0x61, 0x02]

/-- Bytes of `magic256 = "sha\x03"`. -/
def magic256 : List Nat := [0x73, 0x68, 0x61, 0x03]

/-- `marshaledSize = len(magic256) + 8*4 + chunk + 8`. -/
def marshaledSize : Nat := 4 + 8 * 4 + 64 + 8

/-- `(*digest).MarshalBinary`: variant magic tag, eight state words
big-endian, buffer prefix zero-extended to 64 bytes, `d.len` big-endian. -/
def MarshalBinary (d : Digest) : List Nat :=
  (if d.is224 then magic224 else magic256) ++
  Hash.be32 (d.h.getD 0 0) ++ Hash.be32 (d.h.getD 1 0) ++
  Hash.be32 (d.h.getD 2 0) ++ Hash.be32 (d.h.getD 3 0) ++
  Hash.be32 (d.h.getD 4 0) ++ Hash.be32 (d.h.getD 5 0) ++
  Hash.be32 (d.h.getD 6 0) ++ Hash.be32 (d.h.getD 7 0) ++
  (d.x.take d.nx ++ List.replicate (64 - d.nx) 0) ++
  Hash.be64 d.len

/-- Error message of a magic-tag mismatch. -/
def identMsg : String := "crypto/sha256: invalid hash state identifier"

/-- Error message of a wrong blob length. -/
def sizeMsg : String := "crypto/sha256: invalid hash state size"

/-- `(*digest).UnmarshalBinary`, in the same modelling as md5's: the tag
must match the receiver's own variant; both validations precede all field
assignments; on success `d.nx = int(d.len % chunk)`. -/
def UnmarshalBinary (d : Digest) (b : List Nat) :
    Option (Digest × Option String) :=
  if b.length < 4 ∨ (d.is224 ∧ b.take 4 ≠ magic224) ∨ (¬d.is224 ∧ b.take 4 ≠ magic256) then
    some (d, some identMsg)
  else if b.length ≠ marshaledSize then
    some (d, some sizeMsg)
  else do
    let (b1, s0) ← Hash.consume32 (b.drop 4)
    let (b2, s1) ← Hash.consume32 b1
    let (b3, s2) ← Hash.consume32 b2
    let (b4, s3) ← Hash.consume32 b3
    let (b5, s4) ← Hash.consume32 b4
    let (b6, s5) ← Hash.consume32 b5
    let (b7, s6) ← Hash.consume32 b6
    let (b8, s7) ← Hash.consume32 b7
    let k := min 64 b8.length
    let (_, l) ← Hash.consume64 (b8.drop k)
    some ({ h := [s0, s1, s2, s3, s4, s5, s6, s7], x := b8.take k ++ d.x.drop k,
            nx := l % 64, len := l, is224 := d.is224 }, none)

/-- The first finalization slice of `(*digest).checkSum`:
`tmp[0:56-len%64]` when `len%64 < 56`, else `tmp[0:64+56-len%64]`, with
`tmp` the 64-byte array holding `0x80` followed by zeros. -/
def padSlice (n : Nat) : List Nat :=
  if n % 64 < 56 then (0x80 :: List.replicate 63 0).take (56 - n % 64)
  else (0x80 :: List.replicate 63 0).take (64 + 56 - n % 64)

/-- The second finalization slice: `tmp[0:8]` after
`binary.BigEndian.PutUint64(tmp[:], len<<3)`. -/
def lenSlice (n : Nat) : List Nat :=
  (Hash.putAt (0x80 :: List.replicate 63 0) 0 (Hash.be64 (n * 8 % 2 ^ 64))).take 8

/-- The digest extraction of `(*digest).checkSum`: `var digest [Size]byte`
then `binary.BigEndian.PutUint32` of `h[0] ..= h[6]` at offsets 0 ..= 24,
and of `h[7]` at offset 28 only when the digest is not SHA-224. -/
def digestOut (s : List Nat) (is2 : Bool) : List Nat :=
  let d7 := Hash.putAt (Hash.putAt (Hash.putAt (Hash.putAt (Hash.putAt (Hash.putAt
    (Hash.putAt (List.replicate 32 0)
    0 (Hash.be32 (s.getD 0 0))) 4 (Hash.be32 (s.getD 1 0)))
    8 (Hash.be32 (s.getD 2 0))) 12 (Hash.be32 (s.getD 3 0)))
    16 (Hash.be32 (s.getD 4 0))) 20 (Hash.be32 (s.getD 5 0)))
    24 (Hash.be32 (s.getD 6 0))
  if is2 then d7 else Hash.putAt d7 28 (Hash.be32 (s.getD 7 0))

/-- `(*digest).checkSum` for sha256: two `Write` calls (padding run, then
the big-endian bit length), the `panic("d.nx != 0")` guard modelled by
`none`, then the digest extraction. -/
def checkSum (f : List Nat → List Nat → List Nat) (d : Digest) :
    Option (List Nat) :=
  let d1 := write f d (padSlice d.len)
  let d2 := write f d1 (lenSlice d.len)
  if d2.nx ≠ 0 then none else some (digestOut d2.h d2.is224)

/-- `(*digest).Sum(in)`: finalize a copy; SHA-224 appends only the first
28 digest bytes (`hash[:Size224]`), SHA-256 all 32. -/
def Sum (f : List Nat → List Nat → List Nat) (d : Digest) (bin : List Nat) :
    Option (List Nat) :=
  (checkSum f d).map (fun h => if d.is224 then bin ++ h.take 28 else bin ++ h)

/-- `(*digest).Sum(in)` as a state transformer on the receiver: the body
mutates only the structural copy `d0 := *d`, so the receiver is returned
unchanged. -/
def SumOp (f : List Nat → List Nat → List Nat) (d : Digest) (bin : List Nat) :
    Option (List Nat) × Digest :=
  (Sum f d bin, d)

/-- The digest states reachable through the exported API. -/
inductive Reachable (f : List Nat → List Nat → List Nat) : Digest → Prop where
  | new : Reachable f New
  | new224 : Reachable f New224
  | reset (d : Digest) : Reachable f d → Reachable f (Reset d)
  | write (d : Digest) (p : List Nat) : Reachable f d → Reachable f (write f d p)
  | sum (d : Digest) (bin : List Nat) : Reachable f d → Reachable f (SumOp f d bin).2
  | load (d d0 : Digest) (b : List Nat) : Reachable f d →
      UnmarshalBinary d b = some (d0, none) → Reachable f d0

end SHA256

/-- A concrete compression function of MD5's arity, used to instantiate
hypotheses at concrete inputs. -/
def cf4 : List Nat → List Nat → List Nat := fun _ _ => [1, 2, 3, 4]

/-- A concrete compression function of SHA-256's arity. -/
def cf8 : List Nat → List Nat → List Nat := fun _ _ => [1, 2, 3, 4, 5, 6, 7, 8]

namespace Hash

theorem blocksGo_add (f : List Nat → List Nat → List Nat) (q : Nat) :
    ∀ (k : Nat) (s a b : List Nat), a.length = 64 * q →
      blocksGo f (q + k) s (a ++ b) = blocksGo f k (blocksGo f q s a) b := by
  induction q with
  | zero =>
    intro k s a b ha
    have : a = [] := List.eq_nil_of_length_eq_zero (by omega)
    subst this
    simp [blocksGo]
  | succ q ih =>
    intro k s a b ha
    have h64 : 64 ≤ a.length := by omega
    have hq : q + 1 + k = (q + k) + 1 := by omega
    rw [hq]
    show blocksGo f ((q + k) + 1) s (a ++ b) = _
    rw [blocksGo, blocksGo]
    have ht : (a ++ b).take 64 = a.take 64 := by
      rw [List.take_append_eq_append_take]
      have : 64 - a.length = 0 := by omega
      simp [this]
    have hd : (a ++ b).drop 64 = a.drop 64 ++ b := by
      rw [List.drop_append_eq_append_drop]
      have : 64 - a.length = 0 := by omega
      simp [this]
    rw [ht, hd]
    exact ih k (f s (a.take 64)) (a.drop 64) b (by simp [List.length_drop]; omega)

theorem blockRun_append (f : List Nat → List Nat → List Nat) (s a b : List Nat)
    (ha : a.length % 64 = 0) :
    blockRun f s (a ++ b) = blockRun f (blockRun f s a) b := by
  unfold blockRun
  have hq : a.length = 64 * (a.length / 64) := by omega
  have hlen : (a ++ b).length / 64 = a.length / 64 + b.length / 64 := by
    simp only [List.length_append]
    omega
  rw [hlen]
  exact blocksGo_add f (a.length / 64) (b.length / 64) s a b hq

theorem blockRun_small (f : List Nat → List Nat → List Nat) (s p : List Nat)
    (h : p.length < 64) : blockRun f s p = s := by
  unfold blockRun
  have : p.length / 64 = 0 := by omega
  rw [this]
  rfl

theorem blockRun_nil (f : List Nat → List Nat → List Nat) (s : List Nat) :
    blockRun f s [] = s := rfl

theorem blockRun_exact (f : List Nat → List Nat → List Nat) (s p : List Nat)
    (h : p.length = 64) : blockRun f s p = f s p := by
  unfold blockRun
  have : p.length / 64 = 1 := by omega
  rw [this]
  show blocksGo f 0 (f s (p.take 64)) (p.drop 64) = f s p
  rw [blocksGo, List.take_of_length_le (by omega)]

theorem writeTail_nil (f : List Nat → List Nat → List Nat) (d : Core) :
    writeTail f d [] = d := by
  simp [writeTail]

theorem writeTail_spec (f : List Nat → List Nat → List Nat) (d : Core) (p : List Nat)
    (hx : d.x.length = 64) (hnx : d.nx = 0) :
    (writeTail f d p).s = blockRun f d.s (p.take (p.length - p.length % 64)) ∧
    (writeTail f d p).nx = p.length % 64 ∧
    (writeTail f d p).len = d.len ∧
    (writeTail f d p).x.length = 64 ∧
    (writeTail f d p).x.take (p.length % 64) = p.drop (p.length - p.length % 64) := by
  unfold writeTail
  by_cases h64 : 64 ≤ p.length
  · rw [if_pos h64]
    have hlen2 : (p.drop (p.length - p.length % 64)).length = p.length % 64 := by
      simp only [List.length_drop]; omega
    by_cases hp2 : 0 < (p.drop (p.length - p.length % 64)).length
    · rw [if_pos hp2]
      refine ⟨rfl, hlen2, rfl, ?_, ?_⟩
      · show (p.drop (p.length - p.length % 64) ++
            d.x.drop (p.drop (p.length - p.length % 64)).length).length = 64
        simp only [List.length_append, List.length_drop, hx]
        omega
      · show (p.drop (p.length - p.length % 64) ++
            d.x.drop (p.drop (p.length - p.length % 64)).length).take (p.length % 64) =
            p.drop (p.length - p.length % 64)
        exact List.take_left' hlen2
    · rw [if_neg hp2]
      have h0 : p.length % 64 = 0 := by omega
      refine ⟨rfl, by show d.nx = p.length % 64; omega, rfl, hx, ?_⟩
      show d.x.take (p.length % 64) = p.drop (p.length - p.length % 64)
      rw [h0, List.take_zero]
      rw [h0] at hlen2
      exact (List.eq_nil_of_length_eq_zero hlen2).symm
  · rw [if_neg h64]
    push_neg at h64
    have hm : p.length % 64 = p.length := Nat.mod_eq_of_lt h64
    have hz : p.length - p.length % 64 = 0 := by omega
    by_cases hp : 0 < p.length
    · rw [if_pos hp]
      refine ⟨?_, hm.symm, rfl, ?_, ?_⟩
      · show d.s = blockRun f d.s (p.take (p.length - p.length % 64))
        rw [hz, List.take_zero, blockRun_nil]
      · show (p ++ d.x.drop p.length).length = 64
        rw [List.length_append, List.length_drop, hx]
        omega
      · show (p ++ d.x.drop p.length).take (p.length % 64) = p.drop (p.length - p.length % 64)
        rw [hz, hm, List.drop_zero]
        exact List.take_left' rfl
    · rw [if_neg hp]
      have hpe : p = [] := List.eq_nil_of_length_eq_zero (by omega)
      subst hpe
      simp [blockRun_nil, hnx, hx]

theorem writeTail_len (f : List Nat → List Nat → List Nat) (d : Core) (p : List Nat) :
    (writeTail f d p).len = d.len := by
  unfold writeTail
  split
  · dsimp only
    split <;> rfl
  · split <;> rfl

theorem write_len (f : List Nat → List Nat → List Nat) (d : Core) (p : List Nat) :
    (write f d p).len = (d.len + p.length) % 2 ^ 64 := by
  unfold write
  by_cases h0 : 0 < d.nx
  · simp only [if_pos h0]
    split <;> rw [writeTail_len]
  · simp only [if_neg h0]
    rw [writeTail_len]

theorem write_represents (f : List Nat → List Nat → List Nat) (init : List Nat)
    (d : Core) (msg p : List Nat) (h : Represents f init d msg) :
    Represents f init (write f d p) (msg ++ p) := by
  obtain ⟨hs, hx, hnx, hlen, hbuf⟩ := h
  have hr64 : msg.length % 64 < 64 := Nat.mod_lt _ (by omega)
  unfold write
  by_cases h0 : 0 < d.nx
  · rw [if_pos h0]
    dsimp only
    have hn : min (64 - d.nx) p.length = min (64 - msg.length % 64) p.length := by rw [hnx]
    by_cases hfull : d.nx + min (64 - d.nx) p.length = 64
    · rw [if_pos hfull]
      set n := min (64 - d.nx) p.length with hndef
      have hnp : n ≤ p.length := by omega
      have hrn : msg.length % 64 + n = 64 := by omega
      have hdrop64 : d.x.drop (d.nx + n) = [] :=
        List.drop_eq_nil_of_le (by omega)
      have hx1 : d.x.take d.nx ++ p.take n ++ d.x.drop (d.nx + n) =
          msg.drop (msg.length - msg.length % 64) ++ p.take n := by
        rw [hdrop64, hbuf, List.append_nil]
      have hx1len : (msg.drop (msg.length - msg.length % 64) ++ p.take n).length = 64 := by
        rw [List.length_append, List.length_drop, List.length_take]
        omega
      have hfm : (msg.length - msg.length % 64) % 64 = 0 := by omega
      have hs1 : blockRun f d.s (d.x.take d.nx ++ p.take n ++ d.x.drop (d.nx + n)) =
          blockRun f init (msg ++ p.take n) := by
        rw [hx1, hs]
        rw [← blockRun_append f init _ _ (by rw [List.length_take]; omega)]
        rw [← List.append_assoc, List.take_append_drop]
      obtain ⟨ws, wnx, wlen, wxlen, wbuf⟩ :=
        writeTail_spec f { s := blockRun f d.s (d.x.take d.nx ++ p.take n ++ d.x.drop (d.nx + n)),
                           x := d.x.take d.nx ++ p.take n ++ d.x.drop (d.nx + n), nx := 0,
                           len := (d.len + p.length) % 2 ^ 64 } (p.drop n)
          (by simpa [hx1] using hx1len) rfl
      have hql : (p.drop n).length = p.length - n := by rw [List.length_drop]
      have hTmod : (msg ++ p).length % 64 = (p.length - n) % 64 := by
        rw [List.length_append]; omega
      have hTfull : (msg ++ p).length - (msg ++ p).length % 64 =
          msg.length + (n + ((p.length - n) - (p.length - n) % 64)) := by
        rw [List.length_append]; omega
      refine ⟨?_, wxlen, ?_, ?_, ?_⟩
      · rw [ws]
        dsimp only
        rw [hs1, hTfull, List.take_append _, List.take_add]
        rw [← blockRun_append f init _ _ (by rw [List.length_append, List.length_take]; omega)]
        rw [List.append_assoc]
        congr 2
        rw [hql]
      · rw [wnx, hql, hTmod]
      · rw [wlen]
        dsimp only
        rw [List.length_append, hlen]
        omega
      · rw [wnx, wbuf, hql, List.drop_drop, hTfull, List.drop_append _]
    · rw [if_neg hfull]
      set n := min (64 - d.nx) p.length with hndef
      have hnp : n = p.length := by omega
      have hsmall : d.nx + p.length < 64 := by omega
      have hdropnil : p.drop n = [] := List.drop_eq_nil_of_le (by omega)
      rw [hdropnil, writeTail_nil]
      have hTmod : (msg ++ p).length % 64 = msg.length % 64 + p.length := by
        rw [List.length_append]; omega
      have hTfull : (msg ++ p).length - (msg ++ p).length % 64 =
          msg.length - msg.length % 64 := by
        rw [List.length_append]; omega
      refine ⟨?_, ?_, ?_, ?_, ?_⟩
      · show d.s = _
        rw [hs, hTfull, List.take_append_of_le_length (by omega)]
      · show (d.x.take d.nx ++ p.take n ++ d.x.drop (d.nx + n)).length = 64
        rw [List.append_assoc, List.length_append, List.length_append,
            List.length_take, List.length_drop, List.length_take]
        omega
      · show d.nx + n = _
        rw [hTmod, hnx, hnp]
      · show (d.len + p.length) % 2 ^ 64 = _
        rw [List.length_append, hlen]
        omega
      · show (d.x.take d.nx ++ p.take n ++ d.x.drop (d.nx + n)).take (d.nx + n) = _
        rw [List.take_left' (by rw [List.length_append, List.length_take, List.length_take]; omega)]
        rw [hbuf, hnp, List.take_length, hTfull]
        rw [List.drop_append_of_le_length (by omega)]
  · rw [if_neg h0]
    have hr : msg.length % 64 = 0 := by omega
    obtain ⟨ws, wnx, wlen, wxlen, wbuf⟩ :=
      writeTail_spec f { d with len := (d.len + p.length) % 2 ^ 64 } p
        (by simpa using hx) (by show d.nx = 0; omega)
    have hTmod : (msg ++ p).length % 64 = p.length % 64 := by
      rw [List.length_append]; omega
    have hTfull : (msg ++ p).length - (msg ++ p).length % 64 =
        msg.length + (p.length - p.length % 64) := by
      rw [List.length_append]; omega
    refine ⟨?_, wxlen, ?_, ?_, ?_⟩
    · rw [ws]
      show blockRun f d.s _ = _
      rw [hs, hr, Nat.sub_zero, List.take_length, hTfull, List.take_append _]
      rw [← blockRun_append f init _ _ (by omega)]
    · rw [wnx, hTmod]
    · rw [wlen]
      show (d.len + p.length) % 2 ^ 64 = _
      rw [List.length_append, hlen]
      omega
    · rw [wnx, wbuf, hTfull, List.drop_append _]

theorem foldl_represents (f : List Nat → List Nat → List Nat) (init : List Nat)
    (cs : List (List Nat)) : ∀ (d : Core) (msg : List Nat), Represents f init d msg →
    Represents f init (List.foldl (write f) d cs) (msg ++ cs.flatten) := by
  induction cs with
  | nil => intro d msg h; simpa using h
  | cons c cs ih =>
    intro d msg h
    have h1 := write_represents f init d msg c h
    have h2 := ih (write f d c) (msg ++ c) h1
    have he : msg ++ (c :: cs).flatten = (msg ++ c) ++ cs.flatten := by
      simp [List.flatten]
    rw [List.foldl_cons, he]
    exact h2

end Hash

namespace Hash

theorem beVal32_be32 (w : Nat) (r : List Nat) (hw : w < 2 ^ 32) :
    beVal32 (be32 w ++ r) = w := by
  simp only [beVal32, be32, List.cons_append, List.nil_append,
    List.getD_cons_zero, List.getD_cons_succ]
  omega

theorem drop4_be32 (w : Nat) (r : List Nat) : (be32 w ++ r).drop 4 = r := by
  simp [be32]

theorem beVal64_be64 (w : Nat) (r : List Nat) (hw : w < 2 ^ 64) :
    beVal64 (be64 w ++ r) = w := by
  simp only [beVal64, be64, List.cons_append, List.nil_append,
    List.getD_cons_zero, List.getD_cons_succ]
  omega

theorem beVal32_be32_nil (w : Nat) (hw : w < 2 ^ 32) : beVal32 (be32 w) = w := by
  simp only [beVal32, be32, List.getD_cons_zero, List.getD_cons_succ]
  omega

theorem beVal64_be64_nil (w : Nat) (hw : w < 2 ^ 64) : beVal64 (be64 w) = w := by
  simp only [beVal64, be64, List.getD_cons_zero, List.getD_cons_succ]
  omega

theorem consume32_be32 (w : Nat) (r : List Nat) (hw : w < 2 ^ 32) :
    consume32 (be32 w ++ r) = some (r, w) := by
  rw [consume32, if_pos (by simp [be32])]
  rw [drop4_be32, beVal32_be32 w r hw]

theorem consume64_be64 (w : Nat) (r : List Nat) (hw : w < 2 ^ 64) :
    consume64 (be64 w ++ r) = some (r, w) := by
  rw [consume64, if_pos (by simp [be64])]
  rw [beVal64_be64 w r hw]
  simp [be64]

theorem blocksGo_sane (A : Nat) (f : List Nat → List Nat → List Nat)
    (hf : ∀ s c, Sane A (f s c)) :
    ∀ (k : Nat) (s p : List Nat), Sane A s → Sane A (blocksGo f k s p) := by
  intro k
  induction k with
  | zero => intro s p hs; exact hs
  | succ k ih => intro s p _; exact ih (f s (p.take 64)) (p.drop 64) (hf _ _)

theorem blockRun_sane (A : Nat) (f : List Nat → List Nat → List Nat)
    (hf : ∀ s c, Sane A (f s c)) (s p : List Nat) (hs : Sane A s) :
    Sane A (blockRun f s p) :=
  blocksGo_sane A f hf _ s p hs

end Hash

theorem md5_padOf_lt (n : Nat) : MD5.padOf n < 64 :=
  Nat.mod_lt _ (by norm_num)

theorem md5_tailSlice_eq (n : Nat) :
    MD5.tailSlice n =
      0x80 :: (List.replicate (MD5.padOf n) 0 ++ Hash.le64 (n * 8 % 2 ^ 64)) := by
  have hp : MD5.padOf n < 64 := md5_padOf_lt n
  unfold MD5.tailSlice Hash.putAt
  have h1 : (0x80 :: List.replicate 71 0).take (1 + MD5.padOf n) =
      0x80 :: List.replicate (MD5.padOf n) 0 := by
    rw [Nat.add_comm, List.take_succ_cons, List.take_replicate,
      min_eq_left (by omega)]
  rw [h1]
  rw [List.take_left' (by simp [Hash.le64]; omega)]
  simp

theorem md5_pad_total (m : Nat) :
    (m + (1 + MD5.padOf (m % 2 ^ 64) + 8)) % 64 = 0 := by
  unfold MD5.padOf
  have h : (2 : Nat) ^ 64 = 18446744073709551616 := by norm_num
  rw [h]
  omega

theorem md5_tailSlice_length (n : Nat) :
    (MD5.tailSlice n).length = 1 + MD5.padOf n + 8 := by
  rw [md5_tailSlice_eq]
  simp [Hash.le64]
  omega

theorem md5_new_represents (f : List Nat → List Nat → List Nat) :
    Hash.Represents f MD5.initState MD5.New [] := by
  refine ⟨?_, ?_, ?_, ?_, ?_⟩ <;>
    simp [MD5.New, MD5.Reset, Hash.blockRun, Hash.blocksGo]

theorem md5_checkSum_spec (f : List Nat → List Nat → List Nat)
    (d : Hash.Core) (msg : List Nat) (h : Hash.Represents f MD5.initState d msg) :
    MD5.checkSum f d =
      some (MD5.digestOut (Hash.blockRun f MD5.initState
        (msg ++ MD5.tailSlice (msg.length % 2 ^ 64)))) := by
  have h1 := Hash.write_represents f MD5.initState d msg
    (MD5.tailSlice (msg.length % 2 ^ 64)) h
  have hmod : (msg ++ MD5.tailSlice (msg.length % 2 ^ 64)).length % 64 = 0 := by
    rw [List.length_append, md5_tailSlice_length]
    exact md5_pad_total msg.length
  unfold MD5.checkSum
  rw [h.hlen]
  dsimp only
  rw [if_neg (by rw [h1.hnx, hmod]; omega)]
  rw [h1.hs, hmod, Nat.sub_zero, List.take_length]

theorem sha_padSlice_eq (n : Nat) :
    SHA256.padSlice n =
      0x80 :: List.replicate (if n % 64 < 56 then 55 - n % 64 else 119 - n % 64) 0 := by
  unfold SHA256.padSlice
  by_cases hc : n % 64 < 56
  · rw [if_pos hc, if_pos hc]
    have he : 56 - n % 64 = (55 - n % 64) + 1 := by omega
    rw [he, List.take_succ_cons, List.take_replicate, min_eq_left (by omega)]
  · rw [if_neg hc, if_neg hc]
    have hn : n % 64 < 64 := Nat.mod_lt _ (by norm_num)
    have he : 64 + 56 - n % 64 = (119 - n % 64) + 1 := by omega
    rw [he, List.take_succ_cons, List.take_replicate, min_eq_left (by omega)]

theorem sha_lenSlice_eq (n : Nat) :
    SHA256.lenSlice n = Hash.be64 (n * 8 % 2 ^ 64) := by
  unfold SHA256.lenSlice Hash.putAt
  simp only [List.take_zero, List.nil_append]
  rw [List.take_left' (by simp [Hash.be64])]

theorem sha_pad_total (m : Nat) :
    (m + ((SHA256.padSlice (m % 2 ^ 64)).length +
      (SHA256.lenSlice (m % 2 ^ 64)).length)) % 64 = 0 := by
  rw [sha_padSlice_eq, sha_lenSlice_eq]
  simp only [List.length_cons, List.length_replicate, Hash.be64, List.length_cons,
    List.length_nil]
  have h : (2 : Nat) ^ 64 = 18446744073709551616 := by norm_num
  rw [h]
  by_cases hc : m % 18446744073709551616 % 64 < 56
  · rw [if_pos hc]; omega
  · rw [if_neg hc]; omega

theorem sha_new_represents (f : List Nat → List Nat → List Nat) :
    Hash.Represents f SHA256.init256 (SHA256.toCore SHA256.New) [] := by
  refine ⟨?_, ?_, ?_, ?_, ?_⟩ <;>
    simp [SHA256.New, SHA256.Reset, SHA256.toCore, Hash.blockRun, Hash.blocksGo]

theorem sha224_new_represents (f : List Nat → List Nat → List Nat) :
    Hash.Represents f SHA256.init224 (SHA256.toCore SHA256.New224) [] := by
  refine ⟨?_, ?_, ?_, ?_, ?_⟩ <;>
    simp [SHA256.New224, SHA256.Reset, SHA256.toCore, Hash.blockRun, Hash.blocksGo]

theorem sha_write_toCore (f : List Nat → List Nat → List Nat) (d : SHA256.Digest)
    (p : List Nat) : SHA256.toCore (SHA256.write f d p) = Hash.write f (SHA256.toCore d) p :=
  rfl

theorem sha_write_is224 (f : List Nat → List Nat → List Nat) (d : SHA256.Digest)
    (p : List Nat) : (SHA256.write f d p).is224 = d.is224 :=
  rfl

theorem sha_checkSum_spec (f : List Nat → List Nat → List Nat) (I : List Nat)
    (d : SHA256.Digest) (msg : List Nat)
    (h : Hash.Represents f I (SHA256.toCore d) msg) :
    SHA256.checkSum f d =
      some (SHA256.digestOut (Hash.blockRun f I
        (msg ++ SHA256.padSlice (msg.length % 2 ^ 64) ++
          SHA256.lenSlice (msg.length % 2 ^ 64))) d.is224) := by
  have h1 := Hash.write_represents f I (SHA256.toCore d) msg
    (SHA256.padSlice (msg.length % 2 ^ 64)) h
  rw [← sha_write_toCore] at h1
  have h2 := Hash.write_represents f I
    (SHA256.toCore (SHA256.write f d (SHA256.padSlice (msg.length % 2 ^ 64))))
    (msg ++ SHA256.padSlice (msg.length % 2 ^ 64))
    (SHA256.lenSlice (msg.length % 2 ^ 64)) h1
  rw [← sha_write_toCore] at h2
  have hmod : ((msg ++ SHA256.padSlice (msg.length % 2 ^ 64)) ++
      SHA256.lenSlice (msg.length % 2 ^ 64)).length % 64 = 0 := by
    rw [List.length_append, List.length_append, Nat.add_assoc]
    exact sha_pad_total msg.length
  have hd : (SHA256.toCore d).len = d.len := rfl
  unfold SHA256.checkSum
  rw [show d.len = msg.length % 2 ^ 64 from by rw [← hd, h.hlen]]
  dsimp only
  have hnx2 : (SHA256.write f (SHA256.write f d (SHA256.padSlice (msg.length % 2 ^ 64)))
      (SHA256.lenSlice (msg.length % 2 ^ 64))).nx =
      ((msg ++ SHA256.padSlice (msg.length % 2 ^ 64)) ++
        SHA256.lenSlice (msg.length % 2 ^ 64)).length % 64 := h2.hnx
  rw [if_neg (by rw [hnx2, hmod]; omega)]
  have hs2 : (SHA256.write f (SHA256.write f d (SHA256.padSlice (msg.length % 2 ^ 64)))
      (SHA256.lenSlice (msg.length % 2 ^ 64))).h =
      Hash.blockRun f I
        (msg ++ SHA256.padSlice (msg.length % 2 ^ 64) ++
          SHA256.lenSlice (msg.length % 2 ^ 64)) := by
    have := h2.hs
    rw [hmod, Nat.sub_zero, List.take_length] at this
    exact this
  rw [hs2, sha_write_is224, sha_write_is224]

namespace Hash

theorem mod64_pow (a : Nat) : a % 2 ^ 64 % 64 = a % 64 :=
  Nat.mod_mod_of_dvd a (by norm_num)

theorem write_wf (f : List Nat → List Nat → List Nat) (d : Core) (p : List Nat)
    (h : WF d) : WF (write f d p) := by
  obtain ⟨hx, hlt, heq⟩ := h
  unfold write
  by_cases h0 : 0 < d.nx
  · rw [if_pos h0]
    dsimp only
    by_cases hfull : d.nx + min (64 - d.nx) p.length = 64
    · rw [if_pos hfull]
      set n := min (64 - d.nx) p.length with hn
      have hnp : n ≤ p.length := min_le_right _ _
      have hxlen : (d.x.take d.nx ++ p.take n ++ d.x.drop (d.nx + n)).length = 64 := by
        rw [List.append_assoc, List.length_append, List.length_append,
          List.length_take, List.length_take, List.length_drop]
        omega
      obtain ⟨_, wnx, wlen, wxlen, _⟩ :=
        writeTail_spec f { s := blockRun f d.s (d.x.take d.nx ++ p.take n ++ d.x.drop (d.nx + n)),
                           x := d.x.take d.nx ++ p.take n ++ d.x.drop (d.nx + n), nx := 0,
                           len := (d.len + p.length) % 2 ^ 64 } (p.drop n) hxlen rfl
      refine ⟨wxlen, ?_, ?_⟩
      · rw [wnx]
        exact Nat.mod_lt _ (by norm_num)
      · rw [wnx, wlen]
        show _ = (d.len + p.length) % 2 ^ 64 % 64
        rw [mod64_pow, List.length_drop]
        omega
    · rw [if_neg hfull]
      have hdnil : p.drop (min (64 - d.nx) p.length) = [] :=
        List.drop_eq_nil_of_le (by omega)
      rw [hdnil, writeTail_nil]
      refine ⟨?_, ?_, ?_⟩
      · show (d.x.take d.nx ++ p.take (min (64 - d.nx) p.length) ++
            d.x.drop (d.nx + min (64 - d.nx) p.length)).length = 64
        rw [List.append_assoc, List.length_append, List.length_append,
          List.length_take, List.length_take, List.length_drop]
        omega
      · show d.nx + min (64 - d.nx) p.length < 64
        omega
      · show d.nx + min (64 - d.nx) p.length = (d.len + p.length) % 2 ^ 64 % 64
        rw [mod64_pow]
        omega
  · rw [if_neg h0]
    obtain ⟨_, wnx, wlen, wxlen, _⟩ :=
      writeTail_spec f { d with len := (d.len + p.length) % 2 ^ 64 } p
        (by simpa using hx) (by show d.nx = 0; omega)
    refine ⟨wxlen, ?_, ?_⟩
    · rw [wnx]
      exact Nat.mod_lt _ (by norm_num)
    · rw [wnx, wlen]
      show _ = (d.len + p.length) % 2 ^ 64 % 64
      rw [mod64_pow]
      omega

theorem represents_wf (f : List Nat → List Nat → List Nat) (init : List Nat)
    (d : Core) (msg : List Nat) (h : Represents f init d msg) : WF d := by
  refine ⟨h.hx, ?_, ?_⟩
  · rw [h.hnx]
    exact Nat.mod_lt _ (by norm_num)
  · rw [h.hnx, h.hlen, mod64_pow]

end Hash

theorem md5_unmarshal_ok (d : Hash.Core) (b : List Nat)
    (hm : ¬(b.length < 4 ∨ b.take 4 ≠ MD5.magicBytes))
    (hl : b.length = MD5.marshaledSize) :
    MD5.UnmarshalBinary d b =
      some ({ s := [Hash.beVal32 (b.drop 4), Hash.beVal32 (b.drop 8),
                    Hash.beVal32 (b.drop 12), Hash.beVal32 (b.drop 16)],
              x := (b.drop 20).take 64 ++ d.x.drop 64,
              nx := Hash.beVal64 (b.drop 84) % 64,
              len := Hash.beVal64 (b.drop 84) }, none) := by
  have hl92 : b.length = 92 := hl
  unfold MD5.UnmarshalBinary
  rw [if_neg hm, if_neg (by omega)]
  simp [Hash.consume32, Hash.consume64, List.length_drop, hl92, List.drop_drop]

set_option maxHeartbeats 1600000 in
theorem sha_unmarshal_ok (d : SHA256.Digest) (b : List Nat)
    (hm : ¬(b.length < 4 ∨ (d.is224 ∧ b.take 4 ≠ SHA256.magic224) ∨
      (¬d.is224 ∧ b.take 4 ≠ SHA256.magic256)))
    (hl : b.length = SHA256.marshaledSize) :
    SHA256.UnmarshalBinary d b =
      some ({ h := [Hash.beVal32 (b.drop 4), Hash.beVal32 (b.drop 8),
                    Hash.beVal32 (b.drop 12), Hash.beVal32 (b.drop 16),
                    Hash.beVal32 (b.drop 20), Hash.beVal32 (b.drop 24),
                    Hash.beVal32 (b.drop 28), Hash.beVal32 (b.drop 32)],
              x := (b.drop 36).take 64 ++ d.x.drop 64,
              nx := Hash.beVal64 (b.drop 100) % 64,
              len := Hash.beVal64 (b.drop 100),
              is224 := d.is224 }, none) := by
  have hl108 : b.length = 108 := hl
  have hc : ∀ j : Nat, j + 4 ≤ 108 →
      Hash.consume32 (b.drop j) = some (b.drop (j + 4), Hash.beVal32 (b.drop j)) := by
    intro j hj
    rw [Hash.consume32, if_pos (by rw [List.length_drop, hl108]; omega), List.drop_drop]
  have hk : min 64 (List.drop 36 b).length = 64 := by
    rw [List.length_drop, hl108]
    norm_num
  have hc64 : Hash.consume64 (b.drop 100) = some (b.drop 108, Hash.beVal64 (b.drop 100)) := by
    rw [Hash.consume64, if_pos (by rw [List.length_drop, hl108])]
    norm_num [List.drop_drop]
  unfold SHA256.UnmarshalBinary
  rw [if_neg hm, if_neg (by omega)]
  norm_num [hc 4, hc 8, hc 12, hc 16, hc 20, hc 24, hc 28, hc 32, hk, hc64,
    List.drop_drop, hl108]

theorem md5_unmarshal_guards (d d0 : Hash.Core) (b : List Nat)
    (h : MD5.UnmarshalBinary d b = some (d0, none)) :
    ¬(b.length < 4 ∨ b.take 4 ≠ MD5.magicBytes) ∧ b.length = MD5.marshaledSize := by
  by_cases h1 : b.length < 4 ∨ b.take 4 ≠ MD5.magicBytes
  · rw [MD5.UnmarshalBinary, if_pos h1, Option.some_inj] at h
    exact absurd (congrArg Prod.snd h) (by simp)
  · by_cases h2 : b.length = MD5.marshaledSize
    · exact ⟨h1, h2⟩
    · rw [MD5.UnmarshalBinary, if_neg h1, if_pos h2, Option.some_inj] at h
      exact absurd (congrArg Prod.snd h) (by simp)

theorem sha_unmarshal_guards (d d0 : SHA256.Digest) (b : List Nat)
    (h : SHA256.UnmarshalBinary d b = some (d0, none)) :
    ¬(b.length < 4 ∨ (d.is224 ∧ b.take 4 ≠ SHA256.magic224) ∨
      (¬d.is224 ∧ b.take 4 ≠ SHA256.magic256)) ∧ b.length = SHA256.marshaledSize := by
  by_cases h1 : b.length < 4 ∨ (d.is224 ∧ b.take 4 ≠ SHA256.magic224) ∨
      (¬d.is224 ∧ b.take 4 ≠ SHA256.magic256)
  · rw [SHA256.UnmarshalBinary, if_pos h1, Option.some_inj] at h
    exact absurd (congrArg Prod.snd h) (by simp)
  · by_cases h2 : b.length = SHA256.marshaledSize
    · exact ⟨h1, h2⟩
    · rw [SHA256.UnmarshalBinary, if_neg h1, if_pos h2, Option.some_inj] at h
      exact absurd (congrArg Prod.snd h) (by simp)

theorem md5_reachable_wf (f : List Nat → List Nat → List Nat) (d : Hash.Core)
    (h : MD5.Reachable f d) : Hash.WF d := by
  induction h with
  | new =>
    exact ⟨by simp [MD5.New, MD5.Reset], by norm_num [MD5.New, MD5.Reset],
      by simp [MD5.New, MD5.Reset]⟩
  | reset d _ ih =>
    exact ⟨by simpa [MD5.Reset] using ih.1, by norm_num [MD5.Reset],
      by simp [MD5.Reset]⟩
  | write d p _ ih => exact Hash.write_wf f d p ih
  | sum d bin _ ih => exact ih
  | load d d0 b _ hok ih =>
    obtain ⟨hm, hl⟩ := md5_unmarshal_guards d d0 b hok
    rw [md5_unmarshal_ok d b hm hl, Option.some_inj] at hok
    simp only [Prod.mk.injEq, and_true] at hok
    rw [← hok]
    refine ⟨?_, Nat.mod_lt _ (by norm_num), rfl⟩
    show ((b.drop 20).take 64 ++ d.x.drop 64).length = 64
    rw [List.length_append, List.length_take, List.length_drop, List.length_drop, ih.1]
    have : b.length = 92 := hl
    omega

theorem sha_reachable_wf (f : List Nat → List Nat → List Nat) (d : SHA256.Digest)
    (h : SHA256.Reachable f d) : Hash.WF (SHA256.toCore d) := by
  induction h with
  | new =>
    exact ⟨by simp [SHA256.New, SHA256.Reset, SHA256.toCore],
      by norm_num [SHA256.New, SHA256.Reset, SHA256.toCore],
      by simp [SHA256.New, SHA256.Reset, SHA256.toCore]⟩
  | new224 =>
    exact ⟨by simp [SHA256.New224, SHA256.Reset, SHA256.toCore],
      by norm_num [SHA256.New224, SHA256.Reset, SHA256.toCore],
      by simp [SHA256.New224, SHA256.Reset, SHA256.toCore]⟩
  | reset d _ ih =>
    exact ⟨by simpa [SHA256.Reset, SHA256.toCore] using ih.1,
      by norm_num [SHA256.Reset, SHA256.toCore], by simp [SHA256.Reset, SHA256.toCore]⟩
  | write d p _ ih =>
    rw [sha_write_toCore]
    exact Hash.write_wf f (SHA256.toCore d) p ih
  | sum d bin _ ih => exact ih
  | load d d0 b _ hok ih =>
    obtain ⟨hm, hl⟩ := sha_unmarshal_guards d d0 b hok
    rw [sha_unmarshal_ok d b hm hl, Option.some_inj] at hok
    simp only [Prod.mk.injEq, and_true] at hok
    rw [← hok]
    refine ⟨?_, Nat.mod_lt _ (by norm_num), rfl⟩
    show ((b.drop 36).take 64 ++ d.x.drop 64).length = 64
    have hxl : d.x.length = 64 := ih.1
    rw [List.length_append, List.length_take, List.length_drop, List.length_drop, hxl]
    have : b.length = 108 := hl
    omega

theorem md5_pad_total2 (m : Nat) : (m + (MD5.tailSlice m).length) % 2 ^ 64 % 64 = 0 := by
  rw [md5_tailSlice_length, Hash.mod64_pow]
  unfold MD5.padOf
  have h : (2 : Nat) ^ 64 = 18446744073709551616 := by norm_num
  rw [h]
  omega

theorem md5_checkSum_isSome (f : List Nat → List Nat → List Nat) (d : Hash.Core)
    (h : Hash.WF d) : (MD5.checkSum f d).isSome := by
  have h1 := Hash.write_wf f d (MD5.tailSlice d.len) h
  have hlen := Hash.write_len f d (MD5.tailSlice d.len)
  unfold MD5.checkSum
  dsimp only
  rw [if_neg ?hz]
  case hz =>
    rw [h1.2.2, hlen]
    have := md5_pad_total2 d.len
    omega
  rfl

theorem sha_pad_total2 (m : Nat) :
    ((m + (SHA256.padSlice m).length) % 2 ^ 64 + (SHA256.lenSlice m).length) % 2 ^ 64 % 64
      = 0 := by
  rw [sha_padSlice_eq, sha_lenSlice_eq]
  simp only [List.length_cons, List.length_replicate, Hash.be64, List.length_nil]
  have h : (2 : Nat) ^ 64 = 18446744073709551616 := by norm_num
  rw [h]
  by_cases hc : m % 64 < 56
  · rw [if_pos hc]; omega
  · rw [if_neg hc]; omega

theorem sha_checkSum_isSome (f : List Nat → List Nat → List Nat) (d : SHA256.Digest)
    (h : Hash.WF (SHA256.toCore d)) : (SHA256.checkSum f d).isSome := by
  have h1 : Hash.WF (SHA256.toCore (SHA256.write f d (SHA256.padSlice d.len))) := by
    rw [sha_write_toCore]
    exact Hash.write_wf f (SHA256.toCore d) _ h
  have h2 : Hash.WF (SHA256.toCore (SHA256.write f
      (SHA256.write f d (SHA256.padSlice d.len)) (SHA256.lenSlice d.len))) := by
    rw [sha_write_toCore]
    exact Hash.write_wf f _ _ h1
  have hlen1 : (SHA256.toCore (SHA256.write f d (SHA256.padSlice d.len))).len =
      (d.len + (SHA256.padSlice d.len).length) % 2 ^ 64 :=
    Hash.write_len f (SHA256.toCore d) _
  have hlen2 : (SHA256.toCore (SHA256.write f
      (SHA256.write f d (SHA256.padSlice d.len)) (SHA256.lenSlice d.len))).len =
      ((d.len + (SHA256.padSlice d.len).length) % 2 ^ 64 +
        (SHA256.lenSlice d.len).length) % 2 ^ 64 := by
    have e := Hash.write_len f
      (SHA256.toCore (SHA256.write f d (SHA256.padSlice d.len))) (SHA256.lenSlice d.len)
    rw [hlen1] at e
    exact e
  unfold SHA256.checkSum
  dsimp only
  rw [if_neg ?hz]
  case hz =>
    have hnx := h2.2.2
    rw [hlen2] at hnx
    have hb : (SHA256.toCore (SHA256.write f (SHA256.write f d (SHA256.padSlice d.len))
        (SHA256.lenSlice d.len))).nx =
        (SHA256.write f (SHA256.write f d (SHA256.padSlice d.len))
          (SHA256.lenSlice d.len)).nx := rfl
    rw [hb] at hnx
    have ht := sha_pad_total2 d.len
    omega
  rfl

theorem list_eq_four (s : List Nat) (h : s.length = 4) :
    s = [s.getD 0 0, s.getD 1 0, s.getD 2 0, s.getD 3 0] := by
  obtain _ | ⟨a, s⟩ := s; · simp at h
  obtain _ | ⟨b, s⟩ := s; · simp at h
  obtain _ | ⟨c, s⟩ := s; · simp at h
  obtain _ | ⟨e, s⟩ := s; · simp at h
  obtain _ | ⟨x, s⟩ := s
  · rfl
  · simp at h

theorem list_eq_eight (s : List Nat) (h : s.length = 8) :
    s = [s.getD 0 0, s.getD 1 0, s.getD 2 0, s.getD 3 0,
         s.getD 4 0, s.getD 5 0, s.getD 6 0, s.getD 7 0] := by
  obtain _ | ⟨a0, s⟩ := s; · simp at h
  obtain _ | ⟨a1, s⟩ := s; · simp at h
  obtain _ | ⟨a2, s⟩ := s; · simp at h
  obtain _ | ⟨a3, s⟩ := s; · simp at h
  obtain _ | ⟨a4, s⟩ := s; · simp at h
  obtain _ | ⟨a5, s⟩ := s; · simp at h
  obtain _ | ⟨a6, s⟩ := s; · simp at h
  obtain _ | ⟨a7, s⟩ := s; · simp at h
  obtain _ | ⟨x, s⟩ := s
  · rfl
  · simp at h

theorem md5_roundtrip (f : List Nat → List Nat → List Nat) (d : Hash.Core)
    (msg : List Nat) (hrep : Hash.Represents f MD5.initState d msg)
    (hsane : Hash.Sane 4 d.s) :
    MD5.UnmarshalBinary MD5.New (MD5.MarshalBinary d) =
      some ({ s := d.s, x := d.x.take d.nx ++ List.replicate (64 - d.nx) 0,
              nx := d.len % 64, len := d.len }, none) ∧
    Hash.Represents f MD5.initState
      { s := d.s, x := d.x.take d.nx ++ List.replicate (64 - d.nx) 0,
        nx := d.len % 64, len := d.len } msg := by
  have hnxlt : d.nx < 64 := by
    rw [hrep.hnx]; exact Nat.mod_lt _ (by norm_num)
  have htklen : (d.x.take d.nx).length = d.nx := by
    rw [List.length_take, hrep.hx]; omega
  have hbuflen : (d.x.take d.nx ++ List.replicate (64 - d.nx) 0).length = 64 := by
    rw [List.length_append, htklen, List.length_replicate]; omega
  have hlenlt : d.len < 2 ^ 64 := by
    rw [hrep.hlen]; exact Nat.mod_lt _ (by norm_num)
  have e0 : MD5.MarshalBinary d = MD5.magicBytes ++
      (Hash.be32 (d.s.getD 0 0) ++ (Hash.be32 (d.s.getD 1 0) ++
      (Hash.be32 (d.s.getD 2 0) ++ (Hash.be32 (d.s.getD 3 0) ++
      ((d.x.take d.nx ++ List.replicate (64 - d.nx) 0) ++ Hash.be64 d.len))))) := by
    unfold MD5.MarshalBinary
    simp [List.append_assoc]
  have hBlen : (MD5.MarshalBinary d).length = 92 := by
    rw [e0]
    simp [MD5.magicBytes, Hash.be32, Hash.be64, hrep.hx]
    omega
  have d4 : (MD5.MarshalBinary d).drop 4 =
      Hash.be32 (d.s.getD 0 0) ++ (Hash.be32 (d.s.getD 1 0) ++
      (Hash.be32 (d.s.getD 2 0) ++ (Hash.be32 (d.s.getD 3 0) ++
      ((d.x.take d.nx ++ List.replicate (64 - d.nx) 0) ++ Hash.be64 d.len)))) := by
    rw [e0, List.drop_left' (by simp [MD5.magicBytes])]
  have d8 : (MD5.MarshalBinary d).drop 8 =
      Hash.be32 (d.s.getD 1 0) ++ (Hash.be32 (d.s.getD 2 0) ++
      (Hash.be32 (d.s.getD 3 0) ++
      ((d.x.take d.nx ++ List.replicate (64 - d.nx) 0) ++ Hash.be64 d.len))) := by
    have : (8 : Nat) = 4 + 4 := by norm_num
    rw [this, ← List.drop_drop, d4, List.drop_left' (by simp [Hash.be32])]
  have d12 : (MD5.MarshalBinary d).drop 12 =
      Hash.be32 (d.s.getD 2 0) ++ (Hash.be32 (d.s.getD 3 0) ++
      ((d.x.take d.nx ++ List.replicate (64 - d.nx) 0) ++ Hash.be64 d.len)) := by
    have : (12 : Nat) = 8 + 4 := by norm_num
    rw [this, ← List.drop_drop, d8, List.drop_left' (by simp [Hash.be32])]
  have d16 : (MD5.MarshalBinary d).drop 16 =
      Hash.be32 (d.s.getD 3 0) ++
      ((d.x.take d.nx ++ List.replicate (64 - d.nx) 0) ++ Hash.be64 d.len) := by
    have : (16 : Nat) = 12 + 4 := by norm_num
    rw [this, ← List.drop_drop, d12, List.drop_left' (by simp [Hash.be32])]
  have d20 : (MD5.MarshalBinary d).drop 20 =
      (d.x.take d.nx ++ List.replicate (64 - d.nx) 0) ++ Hash.be64 d.len := by
    have : (20 : Nat) = 16 + 4 := by norm_num
    rw [this, ← List.drop_drop, d16, List.drop_left' (by simp [Hash.be32])]
  have d84 : (MD5.MarshalBinary d).drop 84 = Hash.be64 d.len := by
    have : (84 : Nat) = 20 + 64 := by norm_num
    rw [this, ← List.drop_drop, d20, List.drop_left' hbuflen]
  have hmagic : ¬((MD5.MarshalBinary d).length < 4 ∨
      (MD5.MarshalBinary d).take 4 ≠ MD5.magicBytes) := by
    push_neg
    constructor
    · omega
    · rw [e0, List.take_left' (by simp [MD5.magicBytes])]
  have hok := md5_unmarshal_ok MD5.New (MD5.MarshalBinary d) hmagic hBlen
  rw [d4, d8, d12, d16, d20, d84] at hok
  rw [Hash.beVal32_be32 _ _ (hsane.2 0), Hash.beVal32_be32 _ _ (hsane.2 1),
      Hash.beVal32_be32 _ _ (hsane.2 2), Hash.beVal32_be32 _ _ (hsane.2 3),
      Hash.beVal64_be64_nil _ hlenlt] at hok
  have hx0 : ((d.x.take d.nx ++ List.replicate (64 - d.nx) 0) ++ Hash.be64 d.len).take 64 ++
      MD5.New.x.drop 64 = d.x.take d.nx ++ List.replicate (64 - d.nx) 0 := by
    rw [List.take_left' hbuflen]
    simp [MD5.New, MD5.Reset]
  rw [hx0] at hok
  have hseq : [d.s.getD 0 0, d.s.getD 1 0, d.s.getD 2 0, d.s.getD 3 0] = d.s :=
    (list_eq_four d.s hsane.1).symm
  rw [hseq] at hok
  refine ⟨hok, ?_, ?_, ?_, ?_, ?_⟩
  · exact hrep.hs
  · exact hbuflen
  · show d.len % 64 = msg.length % 64
    rw [hrep.hlen, Hash.mod64_pow]
  · exact hrep.hlen
  · show (d.x.take d.nx ++ List.replicate (64 - d.nx) 0).take (d.len % 64) =
      msg.drop (msg.length - msg.length % 64)
    have hnx64 : d.len % 64 = d.nx := by
      rw [hrep.hlen, Hash.mod64_pow, ← hrep.hnx]
    rw [hnx64, List.take_left' htklen]
    exact hrep.hbuf

theorem sha_roundtrip (f : List Nat → List Nat → List Nat) (I : List Nat)
    (d g : SHA256.Digest) (msg : List Nat)
    (hrep : Hash.Represents f I (SHA256.toCore d) msg)
    (hsane : Hash.Sane 8 d.h) (hg224 : g.is224 = d.is224) (hgx : g.x.length = 64) :
    SHA256.UnmarshalBinary g (SHA256.MarshalBinary d) =
      some ({ h := d.h, x := d.x.take d.nx ++ List.replicate (64 - d.nx) 0,
              nx := d.len % 64, len := d.len, is224 := d.is224 }, none) ∧
    Hash.Represents f I
      (SHA256.toCore
        { h := d.h, x := d.x.take d.nx ++ List.replicate (64 - d.nx) 0,
          nx := d.len % 64, len := d.len, is224 := d.is224 }) msg := by
  have hcx : (SHA256.toCore d).x = d.x := rfl
  have hcnx : (SHA256.toCore d).nx = d.nx := rfl
  have hclen : (SHA256.toCore d).len = d.len := rfl
  have hch : (SHA256.toCore d).s = d.h := rfl
  have hnxlt : d.nx < 64 := by
    have := hrep.hnx
    rw [hcnx] at this
    rw [this]; exact Nat.mod_lt _ (by norm_num)
  have hxlen : d.x.length = 64 := by
    have := hrep.hx; rwa [hcx] at this
  have htklen : (d.x.take d.nx).length = d.nx := by
    rw [List.length_take, hxlen]; omega
  have hbuflen : (d.x.take d.nx ++ List.replicate (64 - d.nx) 0).length = 64 := by
    rw [List.length_append, htklen, List.length_replicate]; omega
  have hlenlt : d.len < 2 ^ 64 := by
    have := hrep.hlen
    rw [hclen] at this
    rw [this]; exact Nat.mod_lt _ (by norm_num)
  have e0 : SHA256.MarshalBinary d = (if d.is224 then SHA256.magic224 else SHA256.magic256) ++
      (Hash.be32 (d.h.getD 0 0) ++ (Hash.be32 (d.h.getD 1 0) ++
      (Hash.be32 (d.h.getD 2 0) ++ (Hash.be32 (d.h.getD 3 0) ++
      (Hash.be32 (d.h.getD 4 0) ++ (Hash.be32 (d.h.getD 5 0) ++
      (Hash.be32 (d.h.getD 6 0) ++ (Hash.be32 (d.h.getD 7 0) ++
      ((d.x.take d.nx ++ List.replicate (64 - d.nx) 0) ++ Hash.be64 d.len))))))))) := by
    unfold SHA256.MarshalBinary
    simp [List.append_assoc]
  have hmlen : (if d.is224 then SHA256.magic224 else SHA256.magic256).length = 4 := by
    by_cases hv : d.is224 <;> simp [hv, SHA256.magic224, SHA256.magic256]
  have hBlen : (SHA256.MarshalBinary d).length = 108 := by
    rw [e0]
    simp [hmlen, Hash.be32, Hash.be64, hxlen]
    omega
  have d4 : (SHA256.MarshalBinary d).drop 4 =
      Hash.be32 (d.h.getD 0 0) ++ (Hash.be32 (d.h.getD 1 0) ++
      (Hash.be32 (d.h.getD 2 0) ++ (Hash.be32 (d.h.getD 3 0) ++
      (Hash.be32 (d.h.getD 4 0) ++ (Hash.be32 (d.h.getD 5 0) ++
      (Hash.be32 (d.h.getD 6 0) ++ (Hash.be32 (d.h.getD 7 0) ++
      ((d.x.take d.nx ++ List.replicate (64 - d.nx) 0) ++ Hash.be64 d.len)))))))) := by
    rw [e0, List.drop_left' hmlen]
  have d8 : (SHA256.MarshalBinary d).drop 8 =
      Hash.be32 (d.h.getD 1 0) ++ (Hash.be32 (d.h.getD 2 0) ++
      (Hash.be32 (d.h.getD 3 0) ++ (Hash.be32 (d.h.getD 4 0) ++
      (Hash.be32 (d.h.getD 5 0) ++ (Hash.be32 (d.h.getD 6 0) ++
      (Hash.be32 (d.h.getD 7 0) ++
      ((d.x.take d.nx ++ List.replicate (64 - d.nx) 0) ++ Hash.be64 d.len))))))) := by
    have he : (8 : Nat) = 4 + 4 := by norm_num
    rw [he, ← List.drop_drop, d4, List.drop_left' (by simp [Hash.be32])]
  have d12 : (SHA256.MarshalBinary d).drop 12 =
      Hash.be32 (d.h.getD 2 0) ++ (Hash.be32 (d.h.getD 3 0) ++
      (Hash.be32 (d.h.getD 4 0) ++ (Hash.be32 (d.h.getD 5 0) ++
      (Hash.be32 (d.h.getD 6 0) ++ (Hash.be32 (d.h.getD 7 0) ++
      ((d.x.take d.nx ++ List.replicate (64 - d.nx) 0) ++ Hash.be64 d.len)))))) := by
    have he : (12 : Nat) = 8 + 4 := by norm_num
    rw [he, ← List.drop_drop, d8, List.drop_left' (by simp [Hash.be32])]
  have d16 : (SHA256.MarshalBinary d).drop 16 =
      Hash.be32 (d.h.getD 3 0) ++ (Hash.be32 (d.h.getD 4 0) ++
      (Hash.be32 (d.h.getD 5 0) ++ (Hash.be32 (d.h.getD 6 0) ++
      (Hash.be32 (d.h.getD 7 0) ++
      ((d.x.take d.nx ++ List.replicate (64 - d.nx) 0) ++ Hash.be64 d.len))))) := by
    have he : (16 : Nat) = 12 + 4 := by norm_num
    rw [he, ← List.drop_drop, d12, List.drop_left' (by simp [Hash.be32])]
  have d20 : (SHA256.MarshalBinary d).drop 20 =
      Hash.be32 (d.h.getD 4 0) ++ (Hash.be32 (d.h.getD 5 0) ++
      (Hash.be32 (d.h.getD 6 0) ++ (Hash.be32 (d.h.getD 7 0) ++
      ((d.x.take d.nx ++ List.replicate (64 - d.nx) 0) ++ Hash.be64 d.len)))) := by
    have he : (20 : Nat) = 16 + 4 := by norm_num
    rw [he, ← List.drop_drop, d16, List.drop_left' (by simp [Hash.be32])]
  have d24 : (SHA256.MarshalBinary d).drop 24 =
      Hash.be32 (d.h.getD 5 0) ++ (Hash.be32 (d.h.getD 6 0) ++
      (Hash.be32 (d.h.getD 7 0) ++
      ((d.x.take d.nx ++ List.replicate (64 - d.nx) 0) ++ Hash.be64 d.len))) := by
    have he : (24 : Nat) = 20 + 4 := by norm_num
    rw [he, ← List.drop_drop, d20, List.drop_left' (by simp [Hash.be32])]
  have d28 : (SHA256.MarshalBinary d).drop 28 =
      Hash.be32 (d.h.getD 6 0) ++ (Hash.be32 (d.h.getD 7 0) ++
      ((d.x.take d.nx ++ List.replicate (64 - d.nx) 0) ++ Hash.be64 d.len)) := by
    have he : (28 : Nat) = 24 + 4 := by norm_num
    rw [he, ← List.drop_drop, d24, List.drop_left' (by simp [Hash.be32])]
  have d32 : (SHA256.MarshalBinary d).drop 32 =
      Hash.be32 (d.h.getD 7 0) ++
      ((d.x.take d.nx ++ List.replicate (64 - d.nx) 0) ++ Hash.be64 d.len) := by
    have he : (32 : Nat) = 28 + 4 := by norm_num
    rw [he, ← List.drop_drop, d28, List.drop_left' (by simp [Hash.be32])]
  have d36 : (SHA256.MarshalBinary d).drop 36 =
      (d.x.take d.nx ++ List.replicate (64 - d.nx) 0) ++ Hash.be64 d.len := by
    have he : (36 : Nat) = 32 + 4 := by norm_num
    rw [he, ← List.drop_drop, d32, List.drop_left' (by simp [Hash.be32])]
  have d100 : (SHA256.MarshalBinary d).drop 100 = Hash.be64 d.len := by
    have he : (100 : Nat) = 36 + 64 := by norm_num
    rw [he, ← List.drop_drop, d36, List.drop_left' hbuflen]
  have hmagic : ¬((SHA256.MarshalBinary d).length < 4 ∨
      (g.is224 ∧ (SHA256.MarshalBinary d).take 4 ≠ SHA256.magic224) ∨
      (¬g.is224 ∧ (SHA256.MarshalBinary d).take 4 ≠ SHA256.magic256)) := by
    have htk : (SHA256.MarshalBinary d).take 4 =
        (if d.is224 then SHA256.magic224 else SHA256.magic256) := by
      rw [e0, List.take_left' hmlen]
    push_neg
    refine ⟨by omega, ?_, ?_⟩
    · intro h224
      rw [htk, hg224] at *
      simp [h224] at htk ⊢
    · intro h256
      rw [hg224] at h256
      simp [h256] at htk ⊢
      rw [htk]
  have hok := sha_unmarshal_ok g (SHA256.MarshalBinary d) hmagic hBlen
  rw [d4, d8, d12, d16, d20, d24, d28, d32, d36, d100] at hok
  rw [Hash.beVal32_be32 _ _ (hsane.2 0), Hash.beVal32_be32 _ _ (hsane.2 1),
      Hash.beVal32_be32 _ _ (hsane.2 2), Hash.beVal32_be32 _ _ (hsane.2 3),
      Hash.beVal32_be32 _ _ (hsane.2 4), Hash.beVal32_be32 _ _ (hsane.2 5),
      Hash.beVal32_be32 _ _ (hsane.2 6), Hash.beVal32_be32 _ _ (hsane.2 7),
      Hash.beVal64_be64_nil _ hlenlt] at hok
  have hx0 : ((d.x.take d.nx ++ List.replicate (64 - d.nx) 0) ++ Hash.be64 d.len).take 64 ++
      g.x.drop 64 = d.x.take d.nx ++ List.replicate (64 - d.nx) 0 := by
    rw [List.take_left' hbuflen, List.drop_eq_nil_of_le (by omega), List.append_nil]
  rw [hx0] at hok
  have hseq : [d.h.getD 0 0, d.h.getD 1 0, d.h.getD 2 0, d.h.getD 3 0,
      d.h.getD 4 0, d.h.getD 5 0, d.h.getD 6 0, d.h.getD 7 0] = d.h :=
    (list_eq_eight d.h hsane.1).symm
  rw [hseq, hg224] at hok
  refine ⟨hok, ?_, ?_, ?_, ?_, ?_⟩
  · exact hrep.hs
  · exact hbuflen
  · show d.len % 64 = msg.length % 64
    have := hrep.hlen
    rw [hclen] at this
    rw [this, Hash.mod64_pow]
  · exact hrep.hlen
  · show (d.x.take d.nx ++ List.replicate (64 - d.nx) 0).take (d.len % 64) =
      msg.drop (msg.length - msg.length % 64)
    have hnx64 : d.len % 64 = d.nx := by
      have h1 := hrep.hlen
      have h2 := hrep.hnx
      rw [hclen] at h1
      rw [hcnx] at h2
      rw [h1, Hash.mod64_pow, ← h2]
    rw [hnx64, List.take_left' htklen]
    exact hrep.hbuf

theorem sane_four (a b c e : Nat) (h0 : a < 2 ^ 32) (h1 : b < 2 ^ 32)
    (h2 : c < 2 ^ 32) (h3 : e < 2 ^ 32) : Hash.Sane 4 [a, b, c, e] := by
  refine ⟨rfl, fun i => ?_⟩
  match i with
  | 0 => simpa using h0
  | 1 => simpa using h1
  | 2 => simpa using h2
  | 3 => simpa using h3
  | n + 4 => simp [List.getD]

theorem sane_eight (a0 a1 a2 a3 a4 a5 a6 a7 : Nat)
    (h0 : a0 < 2 ^ 32) (h1 : a1 < 2 ^ 32) (h2 : a2 < 2 ^ 32) (h3 : a3 < 2 ^ 32)
    (h4 : a4 < 2 ^ 32) (h5 : a5 < 2 ^ 32) (h6 : a6 < 2 ^ 32) (h7 : a7 < 2 ^ 32) :
    Hash.Sane 8 [a0, a1, a2, a3, a4, a5, a6, a7] := by
  refine ⟨rfl, fun i => ?_⟩
  match i with
  | 0 => simpa using h0
  | 1 => simpa using h1
  | 2 => simpa using h2
  | 3 => simpa using h3
  | 4 => simpa using h4
  | 5 => simpa using h5
  | 6 => simpa using h6
  | 7 => simpa using h7
  | n + 8 => simp [List.getD]

theorem sane_init_md5 : Hash.Sane 4 MD5.initState :=
  sane_four _ _ _ _ (by norm_num) (by norm_num) (by norm_num) (by norm_num)

theorem sane_init256 : Hash.Sane 8 SHA256.init256 :=
  sane_eight _ _ _ _ _ _ _ _ (by norm_num) (by norm_num) (by norm_num) (by norm_num)
    (by norm_num) (by norm_num) (by norm_num) (by norm_num)

theorem sane_init224 : Hash.Sane 8 SHA256.init224 :=
  sane_eight _ _ _ _ _ _ _ _ (by norm_num) (by norm_num) (by norm_num) (by norm_num)
    (by norm_num) (by norm_num) (by norm_num) (by norm_num)

theorem md5_represents_sane (f : List Nat → List Nat → List Nat)
    (hf : ∀ s c, Hash.Sane 4 (f s c)) (d : Hash.Core) (msg : List Nat)
    (h : Hash.Represents f MD5.initState d msg) : Hash.Sane 4 d.s := by
  rw [h.hs]
  exact Hash.blockRun_sane 4 f hf _ _ sane_init_md5

theorem sha_represents_sane (f : List Nat → List Nat → List Nat) (I : List Nat)
    (hf : ∀ s c, Hash.Sane 8 (f s c)) (hI : Hash.Sane 8 I)
    (d : SHA256.Digest) (msg : List Nat)
    (h : Hash.Represents f I (SHA256.toCore d) msg) : Hash.Sane 8 d.h := by
  have : (SHA256.toCore d).s = d.h := rfl
  rw [← this, h.hs]
  exact Hash.blockRun_sane 8 f hf _ _ hI

theorem sha_foldl_toCore (f : List Nat → List Nat → List Nat) (cs : List (List Nat)) :
    ∀ g : SHA256.Digest, SHA256.toCore (List.foldl (SHA256.write f) g cs) =
      List.foldl (Hash.write f) (SHA256.toCore g) cs := by
  induction cs with
  | nil => intro g; rfl
  | cons c cs ih =>
    intro g
    rw [List.foldl_cons, List.foldl_cons, ← sha_write_toCore]
    exact ih _

theorem sha_foldl_is224 (f : List Nat → List Nat → List Nat) (cs : List (List Nat)) :
    ∀ g : SHA256.Digest, (List.foldl (SHA256.write f) g cs).is224 = g.is224 := by
  induction cs with
  | nil => intro g; rfl
  | cons c cs ih =>
    intro g
    rw [List.foldl_cons, ih, sha_write_is224]

theorem sha_fresh_represents (f : List Nat → List Nat → List Nat) (v : Bool) :
    Hash.Represents f (if v then SHA256.init224 else SHA256.init256)
      (SHA256.toCore (if v then SHA256.New224 else SHA256.New)) [] := by
  cases v
  · simpa using sha_new_represents f
  · simpa using sha224_new_represents f

theorem sane_init_fresh (v : Bool) :
    Hash.Sane 8 (if v then SHA256.init224 else SHA256.init256) := by
  cases v
  · simpa using sane_init256
  · simpa using sane_init224

/-- C1: Chunking invariance.  For every compression function, every list of
chunks, and every variant (MD5; SHA-256 via `v = false`, SHA-224 via
`v = true`), performing the writes chunk by chunk and then finalizing with
`Sum` yields the same digest as a single write of the concatenation. -/
theorem chunking_invariance (f : List Nat → List Nat → List Nat)
    (cs : List (List Nat)) (v : Bool) :
    MD5.Sum f (List.foldl (Hash.write f) MD5.New cs) [] =
      MD5.Sum f (Hash.write f MD5.New cs.flatten) [] ∧
    SHA256.Sum f (List.foldl (SHA256.write f)
        (if v then SHA256.New224 else SHA256.New) cs) [] =
      SHA256.Sum f (SHA256.write f
        (if v then SHA256.New224 else SHA256.New) cs.flatten) [] := by
  constructor
  · have h1 := Hash.foldl_represents f MD5.initState cs MD5.New [] (md5_new_represents f)
    have h2 := Hash.write_represents f MD5.initState MD5.New [] cs.flatten
      (md5_new_represents f)
    rw [List.nil_append] at h1 h2
    unfold MD5.Sum
    rw [md5_checkSum_spec f _ _ h1, md5_checkSum_spec f _ _ h2]
  · have hbase := sha_fresh_represents f v
    have h1 := Hash.foldl_represents f _ cs _ [] hbase
    rw [List.nil_append, ← sha_foldl_toCore] at h1
    have h2 := Hash.write_represents f _ _ _ cs.flatten hbase
    rw [List.nil_append, ← sha_write_toCore] at h2
    unfold SHA256.Sum
    rw [sha_checkSum_spec f _ _ _ h1, sha_checkSum_spec f _ _ _ h2]
    rw [sha_foldl_is224, sha_write_is224]

/-- C2: Non-destructive finalize.  `Sum` hands the receiver back unchanged
(the body finalizes a structural copy only), a later write behaves exactly
as if `Sum` had never been called, and the digest obtained afterwards is
the digest of all bytes written across both phases, for all three
algorithm variants. -/
theorem nondestructive_finalize (f : List Nat → List Nat → List Nat)
    (cs : List (List Nat)) (b bin : List Nat) (v : Bool) :
    (MD5.SumOp f (List.foldl (Hash.write f) MD5.New cs) bin).2 =
      List.foldl (Hash.write f) MD5.New cs ∧
    MD5.Sum f (Hash.write f (MD5.SumOp f (List.foldl (Hash.write f) MD5.New cs) bin).2 b) [] =
      MD5.Sum f (Hash.write f (List.foldl (Hash.write f) MD5.New cs) b) [] ∧
    MD5.Sum f (Hash.write f (MD5.SumOp f (List.foldl (Hash.write f) MD5.New cs) bin).2 b) [] =
      MD5.Sum f (Hash.write f MD5.New (cs.flatten ++ b)) [] ∧
    (SHA256.SumOp f (List.foldl (SHA256.write f)
        (if v then SHA256.New224 else SHA256.New) cs) bin).2 =
      List.foldl (SHA256.write f) (if v then SHA256.New224 else SHA256.New) cs ∧
    SHA256.Sum f (SHA256.write f (SHA256.SumOp f (List.foldl (SHA256.write f)
        (if v then SHA256.New224 else SHA256.New) cs) bin).2 b) [] =
      SHA256.Sum f (SHA256.write f (List.foldl (SHA256.write f)
        (if v then SHA256.New224 else SHA256.New) cs) b) [] ∧
    SHA256.Sum f (SHA256.write f (SHA256.SumOp f (List.foldl (SHA256.write f)
        (if v then SHA256.New224 else SHA256.New) cs) bin).2 b) [] =
      SHA256.Sum f (SHA256.write f (if v then SHA256.New224 else SHA256.New)
        (cs.flatten ++ b)) [] := by
  refine ⟨rfl, rfl, ?_, rfl, rfl, ?_⟩
  · have h1 := Hash.write_represents f MD5.initState _ ([] ++ cs.flatten) b
      (Hash.foldl_represents f MD5.initState cs MD5.New [] (md5_new_represents f))
    have h2 := Hash.write_represents f MD5.initState MD5.New [] (cs.flatten ++ b)
      (md5_new_represents f)
    rw [List.nil_append] at h1 h2
    unfold MD5.Sum
    rw [show (MD5.SumOp f (List.foldl (Hash.write f) MD5.New cs) bin).2 =
        List.foldl (Hash.write f) MD5.New cs from rfl]
    rw [md5_checkSum_spec f _ _ h1, md5_checkSum_spec f _ _ h2]
  · have hbase := sha_fresh_represents f v
    have h0 := Hash.foldl_represents f _ cs _ [] hbase
    rw [← sha_foldl_toCore] at h0
    have h1 := Hash.write_represents f _ _ _ b h0
    rw [← sha_write_toCore] at h1
    rw [List.nil_append] at h1
    have h2 := Hash.write_represents f _ _ _ (cs.flatten ++ b) hbase
    rw [List.nil_append, ← sha_write_toCore] at h2
    unfold SHA256.Sum
    rw [show (SHA256.SumOp f (List.foldl (SHA256.write f)
        (if v then SHA256.New224 else SHA256.New) cs) bin).2 =
        List.foldl (SHA256.write f) (if v then SHA256.New224 else SHA256.New) cs from rfl]
    rw [sha_checkSum_spec f _ _ _ h1, sha_checkSum_spec f _ _ _ h2]
    rw [sha_write_is224, sha_write_is224, sha_foldl_is224]

theorem md5_pad_mod56 (n : Nat) (h : n < 2 ^ 64) :
    (n + 1 + MD5.padOf n) % 64 = 56 := by
  unfold MD5.padOf
  have he : (2 : Nat) ^ 64 = 18446744073709551616 := by norm_num
  rw [he] at h ⊢
  omega

/-- C3: Finalization padding and length encoding.  For every total length
below `2 ^ 64`, the bytes pushed by `checkSum` are one `0x80` byte, a zero
run making the running length congruent to 56 mod 64, then the bit length
`n * 8` (modulo `2 ^ 64`, the width of the 8-byte field) — little-endian
for MD5, big-endian for SHA-224/256 — and the padded total is an exact
multiple of 64 bytes. -/
theorem padding_length_encoding (n : Nat) (h : n < 2 ^ 64) :
    (∃ z, MD5.tailSlice n = 0x80 :: (List.replicate z 0 ++ Hash.le64 (n * 8 % 2 ^ 64)) ∧
      z < 64 ∧ (n + 1 + z) % 64 = 56) ∧
    (n + (MD5.tailSlice n).length) % 64 = 0 ∧
    (∃ z, SHA256.padSlice n ++ SHA256.lenSlice n =
        0x80 :: (List.replicate z 0 ++ Hash.be64 (n * 8 % 2 ^ 64)) ∧
      z < 64 ∧ (n + 1 + z) % 64 = 56) ∧
    (n + (SHA256.padSlice n ++ SHA256.lenSlice n).length) % 64 = 0 := by
  refine ⟨⟨MD5.padOf n, ?_, md5_padOf_lt n, md5_pad_mod56 n h⟩, ?_, ?_, ?_⟩
  · exact md5_tailSlice_eq n
  · rw [md5_tailSlice_length]
    unfold MD5.padOf
    have he : (2 : Nat) ^ 64 = 18446744073709551616 := by norm_num
    rw [he]
    omega
  · refine ⟨if n % 64 < 56 then 55 - n % 64 else 119 - n % 64, ?_, ?_, ?_⟩
    · rw [sha_padSlice_eq, sha_lenSlice_eq, List.cons_append]
    · by_cases hc : n % 64 < 56
      · rw [if_pos hc]; omega
      · rw [if_neg hc]
        have : n % 64 < 64 := Nat.mod_lt _ (by norm_num)
        omega
    · by_cases hc : n % 64 < 56
      · rw [if_pos hc]; omega
      · rw [if_neg hc]
        have : n % 64 < 64 := Nat.mod_lt _ (by norm_num)
        omega
  · rw [sha_padSlice_eq, sha_lenSlice_eq]
    simp only [List.length_append, List.length_cons, List.length_replicate,
      Hash.be64, List.length_nil]
    by_cases hc : n % 64 < 56
    · rw [if_pos hc]; omega
    · rw [if_neg hc]
      have : n % 64 < 64 := Nat.mod_lt _ (by norm_num)
      omega

/-- Witness for C3 at the concrete length 100. -/
theorem padding_length_encoding_witness :
    100 < 2 ^ 64 ∧
    ((∃ z, MD5.tailSlice 100 = 0x80 :: (List.replicate z 0 ++ Hash.le64 (100 * 8 % 2 ^ 64)) ∧
      z < 64 ∧ (100 + 1 + z) % 64 = 56) ∧
    (100 + (MD5.tailSlice 100).length) % 64 = 0 ∧
    (∃ z, SHA256.padSlice 100 ++ SHA256.lenSlice 100 =
        0x80 :: (List.replicate z 0 ++ Hash.be64 (100 * 8 % 2 ^ 64)) ∧
      z < 64 ∧ (100 + 1 + z) % 64 = 56) ∧
    (100 + (SHA256.padSlice 100 ++ SHA256.lenSlice 100).length) % 64 = 0) :=
  ⟨by norm_num, padding_length_encoding 100 (by norm_num)⟩

theorem cf4_sane : ∀ s c, Hash.Sane 4 (cf4 s c) := fun _ _ =>
  sane_four _ _ _ _ (by norm_num) (by norm_num) (by norm_num) (by norm_num)

theorem cf8_sane : ∀ s c, Hash.Sane 8 (cf8 s c) := fun _ _ =>
  sane_eight _ _ _ _ _ _ _ _ (by norm_num) (by norm_num) (by norm_num) (by norm_num)
    (by norm_num) (by norm_num) (by norm_num) (by norm_num)

/-- C4: Round-trip checkpoint/restore.  After any sequence of prior
writes, exporting with `MarshalBinary` and importing into a fresh
instance of the matching algorithm and variant succeeds without error,
derives the fill count as `len % 64`, and continuing with identical
subsequent writes yields identical final digests on both instances. -/
theorem roundtrip_checkpoint (f g : List Nat → List Nat → List Nat)
    (hf : ∀ s c, Hash.Sane 4 (f s c)) (hg : ∀ s c, Hash.Sane 8 (g s c))
    (cs bs : List (List Nat)) (v : Bool) :
    (∃ d', MD5.UnmarshalBinary MD5.New
        (MD5.MarshalBinary (List.foldl (Hash.write f) MD5.New cs)) = some (d', none) ∧
      d'.nx = d'.len % 64 ∧
      MD5.Sum f (List.foldl (Hash.write f) d' bs) [] =
        MD5.Sum f (List.foldl (Hash.write f) (List.foldl (Hash.write f) MD5.New cs) bs) []) ∧
    (∃ d', SHA256.UnmarshalBinary (if v then SHA256.New224 else SHA256.New)
        (SHA256.MarshalBinary (List.foldl (SHA256.write g)
          (if v then SHA256.New224 else SHA256.New) cs)) = some (d', none) ∧
      d'.nx = d'.len % 64 ∧ d'.is224 = v ∧
      SHA256.Sum g (List.foldl (SHA256.write g) d' bs) [] =
        SHA256.Sum g (List.foldl (SHA256.write g) (List.foldl (SHA256.write g)
          (if v then SHA256.New224 else SHA256.New) cs) bs) []) := by
  constructor
  · have hrep := Hash.foldl_represents f MD5.initState cs MD5.New [] (md5_new_represents f)
    rw [List.nil_append] at hrep
    have hsane := md5_represents_sane f hf _ _ hrep
    obtain ⟨hun, hrep'⟩ := md5_roundtrip f _ cs.flatten hrep hsane
    refine ⟨_, hun, rfl, ?_⟩
    have h1 := Hash.foldl_represents f MD5.initState bs _ _ hrep'
    have h2 := Hash.foldl_represents f MD5.initState bs _ _ hrep
    unfold MD5.Sum
    rw [md5_checkSum_spec f _ _ h1, md5_checkSum_spec f _ _ h2]
  · have hbase := sha_fresh_represents g v
    have hrep := Hash.foldl_represents g _ cs _ [] hbase
    rw [List.nil_append, ← sha_foldl_toCore] at hrep
    have hsane := sha_represents_sane g _ hg (sane_init_fresh v) _ _ hrep
    have h224 : (if v then SHA256.New224 else SHA256.New).is224 =
        (List.foldl (SHA256.write g) (if v then SHA256.New224 else SHA256.New) cs).is224 :=
      (sha_foldl_is224 g cs _).symm
    have hx64 : (if v then SHA256.New224 else SHA256.New).x.length = 64 := by
      cases v <;> simp [SHA256.New, SHA256.New224, SHA256.Reset]
    obtain ⟨hun, hrep'⟩ := sha_roundtrip g _ _ _ cs.flatten hrep hsane h224 hx64
    refine ⟨_, hun, rfl, ?_, ?_⟩
    · show (List.foldl (SHA256.write g) (if v then SHA256.New224 else SHA256.New) cs).is224 = v
      rw [sha_foldl_is224]
      cases v <;> simp [SHA256.New, SHA256.New224, SHA256.Reset]
    · have h1 := Hash.foldl_represents g _ bs _ _ hrep'
      rw [← sha_foldl_toCore] at h1
      have h2 := Hash.foldl_represents g _ bs _ _ hrep
      rw [← sha_foldl_toCore] at h2
      unfold SHA256.Sum
      rw [sha_checkSum_spec g _ _ _ h1, sha_checkSum_spec g _ _ _ h2]
      rw [sha_foldl_is224, sha_foldl_is224, sha_foldl_is224, h224]

/-- Witness for C4 at concrete block functions, prior writes `[[5,6],[7]]`,
subsequent writes `[[9]]`, SHA-224 variant. -/
theorem roundtrip_checkpoint_witness :
    (∀ s c, Hash.Sane 4 (cf4 s c)) ∧ (∀ s c, Hash.Sane 8 (cf8 s c)) ∧
    ((∃ d', MD5.UnmarshalBinary MD5.New
        (MD5.MarshalBinary (List.foldl (Hash.write cf4) MD5.New [[5, 6], [7]])) =
          some (d', none) ∧
      d'.nx = d'.len % 64 ∧
      MD5.Sum cf4 (List.foldl (Hash.write cf4) d' [[9]]) [] =
        MD5.Sum cf4 (List.foldl (Hash.write cf4)
          (List.foldl (Hash.write cf4) MD5.New [[5, 6], [7]]) [[9]]) []) ∧
    (∃ d', SHA256.UnmarshalBinary (if true then SHA256.New224 else SHA256.New)
        (SHA256.MarshalBinary (List.foldl (SHA256.write cf8)
          (if true then SHA256.New224 else SHA256.New) [[5, 6], [7]])) = some (d', none) ∧
      d'.nx = d'.len % 64 ∧ d'.is224 = true ∧
      SHA256.Sum cf8 (List.foldl (SHA256.write cf8) d' [[9]]) [] =
        SHA256.Sum cf8 (List.foldl (SHA256.write cf8) (List.foldl (SHA256.write cf8)
          (if true then SHA256.New224 else SHA256.New) [[5, 6], [7]]) [[9]]) [])) :=
  ⟨cf4_sane, cf8_sane,
    roundtrip_checkpoint cf4 cf8 cf4_sane cf8_sane [[5, 6], [7]] [[9]] true⟩

/-- C5: Import error taxonomy.  `UnmarshalBinary` returns the
invalid-state-identifier error exactly when the magic tag check fails
(including a SHA-224 blob offered to a SHA-256 instance and vice versa),
the distinct invalid-state-size error exactly when the tag matches but the
length is wrong, and succeeds otherwise; `Write` never returns an error. -/
theorem import_error_taxonomy :
    (∀ (d : Hash.Core) (b : List Nat),
      (MD5.UnmarshalBinary d b = some (d, some MD5.identMsg) ↔
        (b.length < 4 ∨ b.take 4 ≠ MD5.magicBytes)) ∧
      (MD5.UnmarshalBinary d b = some (d, some MD5.sizeMsg) ↔
        (¬(b.length < 4 ∨ b.take 4 ≠ MD5.magicBytes) ∧ b.length ≠ MD5.marshaledSize)) ∧
      ((∃ d', MD5.UnmarshalBinary d b = some (d', none)) ↔
        (¬(b.length < 4 ∨ b.take 4 ≠ MD5.magicBytes) ∧ b.length = MD5.marshaledSize))) ∧
    (∀ (d : SHA256.Digest) (b : List Nat),
      (SHA256.UnmarshalBinary d b = some (d, some SHA256.identMsg) ↔
        (b.length < 4 ∨ (d.is224 ∧ b.take 4 ≠ SHA256.magic224) ∨
          (¬d.is224 ∧ b.take 4 ≠ SHA256.magic256))) ∧
      (SHA256.UnmarshalBinary d b = some (d, some SHA256.sizeMsg) ↔
        (¬(b.length < 4 ∨ (d.is224 ∧ b.take 4 ≠ SHA256.magic224) ∨
          (¬d.is224 ∧ b.take 4 ≠ SHA256.magic256)) ∧ b.length ≠ SHA256.marshaledSize)) ∧
      ((∃ d', SHA256.UnmarshalBinary d b = some (d', none)) ↔
        (¬(b.length < 4 ∨ (d.is224 ∧ b.take 4 ≠ SHA256.magic224) ∨
          (¬d.is224 ∧ b.take 4 ≠ SHA256.magic256)) ∧ b.length = SHA256.marshaledSize))) ∧
    MD5.identMsg ≠ MD5.sizeMsg ∧ SHA256.identMsg ≠ SHA256.sizeMsg ∧
    SHA256.UnmarshalBinary SHA256.New (SHA256.MarshalBinary SHA256.New224) =
      some (SHA256.New, some SHA256.identMsg) ∧
    SHA256.UnmarshalBinary SHA256.New224 (SHA256.MarshalBinary SHA256.New) =
      some (SHA256.New224, some SHA256.identMsg) ∧
    (∀ p : List Nat, Hash.writeRet p = (p.length, none)) := by
  refine ⟨?_, ?_, ?_, ?_, ?_, ?_, fun p => rfl⟩
  · intro d b
    by_cases h1 : b.length < 4 ∨ b.take 4 ≠ MD5.magicBytes
    · rw [MD5.UnmarshalBinary, if_pos h1]
      refine ⟨⟨fun _ => h1, fun _ => rfl⟩,
        ⟨fun he => ?_, fun hc => absurd h1 hc.1⟩,
        ⟨fun hd' => ?_, fun hc => absurd h1 hc.1⟩⟩
      · simp [MD5.identMsg, MD5.sizeMsg] at he
      · obtain ⟨d', hd'⟩ := hd'
        simp at hd'
    · by_cases h2 : b.length = MD5.marshaledSize
      · rw [md5_unmarshal_ok d b h1 h2]
        refine ⟨⟨fun he => ?_, fun hc => absurd hc h1⟩,
          ⟨fun he => ?_, fun hc => absurd h2 hc.2⟩,
          ⟨fun _ => ⟨h1, h2⟩, fun _ => ⟨_, rfl⟩⟩⟩
        · simp at he
        · simp at he
      · rw [MD5.UnmarshalBinary, if_neg h1, if_pos h2]
        refine ⟨⟨fun he => ?_, fun hc => absurd hc h1⟩,
          ⟨fun _ => ⟨h1, h2⟩, fun _ => rfl⟩,
          ⟨fun hd' => ?_, fun hc => absurd hc.2 h2⟩⟩
        · simp [MD5.identMsg, MD5.sizeMsg] at he
        · obtain ⟨d', hd'⟩ := hd'
          simp at hd'
  · intro d b
    by_cases h1 : b.length < 4 ∨ (d.is224 ∧ b.take 4 ≠ SHA256.magic224) ∨
        (¬d.is224 ∧ b.take 4 ≠ SHA256.magic256)
    · rw [SHA256.UnmarshalBinary, if_pos h1]
      refine ⟨⟨fun _ => h1, fun _ => rfl⟩,
        ⟨fun he => ?_, fun hc => absurd h1 hc.1⟩,
        ⟨fun hd' => ?_, fun hc => absurd h1 hc.1⟩⟩
      · simp [SHA256.identMsg, SHA256.sizeMsg] at he
      · obtain ⟨d', hd'⟩ := hd'
        simp at hd'
    · by_cases h2 : b.length = SHA256.marshaledSize
      · rw [sha_unmarshal_ok d b h1 h2]
        refine ⟨⟨fun he => ?_, fun hc => absurd hc h1⟩,
          ⟨fun he => ?_, fun hc => absurd h2 hc.2⟩,
          ⟨fun _ => ⟨h1, h2⟩, fun _ => ⟨_, rfl⟩⟩⟩
        · simp at he
        · simp at he
      · rw [SHA256.UnmarshalBinary, if_neg h1, if_pos h2]
        refine ⟨⟨fun he => ?_, fun hc => absurd hc h1⟩,
          ⟨fun _ => ⟨h1, h2⟩, fun _ => rfl⟩,
          ⟨fun hd' => ?_, fun hc => absurd hc.2 h2⟩⟩
        · simp [SHA256.identMsg, SHA256.sizeMsg] at he
        · obtain ⟨d', hd'⟩ := hd'
          simp at hd'
  · simp [MD5.identMsg, MD5.sizeMsg]
  · simp [SHA256.identMsg, SHA256.sizeMsg]
  · decide
  · decide

theorem take_app (l₁ l₂ : List Nat) (n m : Nat) (h : l₁.length = n) :
    (l₁ ++ l₂).take (n + m) = l₁ ++ l₂.take m := by
  subst h
  exact List.take_append m

/-- C6 counterexample: the serialized state of a fresh SHA-256 digest is
not 136 bytes long (it is 108 = 4 + 8*4 + 64 + 8 bytes). -/
theorem sha_blob_not_136 : (SHA256.MarshalBinary SHA256.New).length ≠ 136 := by
  decide

/-- C6 (amended): the MD5 blob is 92 bytes and the SHA-256/SHA-224 blob is
108 bytes (4-byte magic + 8 state words of 4 bytes + 64-byte buffer +
8-byte count), laid out as magic tag, state words big-endian, the full
block buffer with bytes beyond the fill count written as zero, and the
total length as a big-endian 8-byte integer. -/
theorem serialized_blob_layout (c : Hash.Core) (d : SHA256.Digest)
    (hcx : c.x.length = 64) (hcnx : c.nx ≤ 64)
    (hdx : d.x.length = 64) (hdnx : d.nx ≤ 64) :
    (MD5.MarshalBinary c).length = 92 ∧ MD5.marshaledSize = 92 ∧
    (MD5.MarshalBinary c).take 4 = MD5.magicBytes ∧
    ((MD5.MarshalBinary c).drop 4).take 16 =
      Hash.be32 (c.s.getD 0 0) ++ (Hash.be32 (c.s.getD 1 0) ++
      (Hash.be32 (c.s.getD 2 0) ++ Hash.be32 (c.s.getD 3 0))) ∧
    ((MD5.MarshalBinary c).drop 20).take 64 =
      c.x.take c.nx ++ List.replicate (64 - c.nx) 0 ∧
    (MD5.MarshalBinary c).drop 84 = Hash.be64 c.len ∧
    (SHA256.MarshalBinary d).length = 108 ∧ SHA256.marshaledSize = 108 ∧
    (SHA256.MarshalBinary d).take 4 =
      (if d.is224 then SHA256.magic224 else SHA256.magic256) ∧
    ((SHA256.MarshalBinary d).drop 4).take 32 =
      Hash.be32 (d.h.getD 0 0) ++ (Hash.be32 (d.h.getD 1 0) ++
      (Hash.be32 (d.h.getD 2 0) ++ (Hash.be32 (d.h.getD 3 0) ++
      (Hash.be32 (d.h.getD 4 0) ++ (Hash.be32 (d.h.getD 5 0) ++
      (Hash.be32 (d.h.getD 6 0) ++ Hash.be32 (d.h.getD 7 0))))))) ∧
    ((SHA256.MarshalBinary d).drop 36).take 64 =
      d.x.take d.nx ++ List.replicate (64 - d.nx) 0 ∧
    (SHA256.MarshalBinary d).drop 100 = Hash.be64 d.len := by
  have htkc : (c.x.take c.nx).length = c.nx := by
    rw [List.length_take, hcx]; omega
  have hbufc : (c.x.take c.nx ++ List.replicate (64 - c.nx) 0).length = 64 := by
    rw [List.length_append, htkc, List.length_replicate]; omega
  have htkd : (d.x.take d.nx).length = d.nx := by
    rw [List.length_take, hdx]; omega
  have hbufd : (d.x.take d.nx ++ List.replicate (64 - d.nx) 0).length = 64 := by
    rw [List.length_append, htkd, List.length_replicate]; omega
  have ec : MD5.MarshalBinary c = MD5.magicBytes ++
      (Hash.be32 (c.s.getD 0 0) ++ (Hash.be32 (c.s.getD 1 0) ++
      (Hash.be32 (c.s.getD 2 0) ++ (Hash.be32 (c.s.getD 3 0) ++
      ((c.x.take c.nx ++ List.replicate (64 - c.nx) 0) ++ Hash.be64 c.len))))) := by
    unfold MD5.MarshalBinary
    simp [List.append_assoc]
  have hmlen : (if d.is224 then SHA256.magic224 else SHA256.magic256).length = 4 := by
    by_cases hv : d.is224 <;> simp [hv, SHA256.magic224, SHA256.magic256]
  have ed : SHA256.MarshalBinary d = (if d.is224 then SHA256.magic224 else SHA256.magic256) ++
      (Hash.be32 (d.h.getD 0 0) ++ (Hash.be32 (d.h.getD 1 0) ++
      (Hash.be32 (d.h.getD 2 0) ++ (Hash.be32 (d.h.getD 3 0) ++
      (Hash.be32 (d.h.getD 4 0) ++ (Hash.be32 (d.h.getD 5 0) ++
      (Hash.be32 (d.h.getD 6 0) ++ (Hash.be32 (d.h.getD 7 0) ++
      ((d.x.take d.nx ++ List.replicate (64 - d.nx) 0) ++ Hash.be64 d.len))))))))) := by
    unfold SHA256.MarshalBinary
    simp [List.append_assoc]
  refine ⟨?_, rfl, ?_, ?_, ?_, ?_, ?_, rfl, ?_, ?_, ?_, ?_⟩
  · rw [ec]
    simp [MD5.magicBytes, Hash.be32, Hash.be64, hcx]
    omega
  · rw [ec, List.take_left' (by simp [MD5.magicBytes])]
  · rw [ec, List.drop_left' (by simp [MD5.magicBytes])]
    rw [show (16 : Nat) = 4 + 12 from by norm_num,
      take_app _ _ _ _ (by simp [Hash.be32]),
      show (12 : Nat) = 4 + 8 from by norm_num,
      take_app _ _ _ _ (by simp [Hash.be32]),
      show (8 : Nat) = 4 + 4 from by norm_num,
      take_app _ _ _ _ (by simp [Hash.be32]),
      List.take_left' (by simp [Hash.be32])]
  · rw [show (20 : Nat) = 4 + 16 from by norm_num, ← List.drop_drop,
      ec, List.drop_left' (by simp [MD5.magicBytes]),
      show (16 : Nat) = 4 + 12 from by norm_num, ← List.drop_drop,
      List.drop_left' (by simp [Hash.be32]),
      show (12 : Nat) = 4 + 8 from by norm_num, ← List.drop_drop,
      List.drop_left' (by simp [Hash.be32]),
      show (8 : Nat) = 4 + 4 from by norm_num, ← List.drop_drop,
      List.drop_left' (by simp [Hash.be32]),
      List.drop_left' (by simp [Hash.be32]),
      List.take_left' hbufc]
  · rw [show (84 : Nat) = 4 + 80 from by norm_num, ← List.drop_drop,
      ec, List.drop_left' (by simp [MD5.magicBytes]),
      show (80 : Nat) = 4 + 76 from by norm_num, ← List.drop_drop,
      List.drop_left' (by simp [Hash.be32]),
      show (76 : Nat) = 4 + 72 from by norm_num, ← List.drop_drop,
      List.drop_left' (by simp [Hash.be32]),
      show (72 : Nat) = 4 + 68 from by norm_num, ← List.drop_drop,
      List.drop_left' (by simp [Hash.be32]),
      show (68 : Nat) = 4 + 64 from by norm_num, ← List.drop_drop,
      List.drop_left' (by simp [Hash.be32]),
      List.drop_left' hbufc]
  · rw [ed]
    simp [hmlen, Hash.be32, Hash.be64, hdx]
    omega
  · rw [ed, List.take_left' hmlen]
  · rw [ed, List.drop_left' hmlen,
      show (32 : Nat) = 4 + 28 from by norm_num,
      take_app _ _ _ _ (by simp [Hash.be32]),
      show (28 : Nat) = 4 + 24 from by norm_num,
      take_app _ _ _ _ (by simp [Hash.be32]),
      show (24 : Nat) = 4 + 20 from by norm_num,
      take_app _ _ _ _ (by simp [Hash.be32]),
      show (20 : Nat) = 4 + 16 from by norm_num,
      take_app _ _ _ _ (by simp [Hash.be32]),
      show (16 : Nat) = 4 + 12 from by norm_num,
      take_app _ _ _ _ (by simp [Hash.be32]),
      show (12 : Nat) = 4 + 8 from by norm_num,
      take_app _ _ _ _ (by simp [Hash.be32]),
      show (8 : Nat) = 4 + 4 from by norm_num,
      take_app _ _ _ _ (by simp [Hash.be32]),
      List.take_left' (by simp [Hash.be32])]
  · rw [show (36 : Nat) = 4 + 32 from by norm_num, ← List.drop_drop,
      ed, List.drop_left' hmlen,
      show (32 : Nat) = 4 + 28 from by norm_num, ← List.drop_drop,
      List.drop_left' (by simp [Hash.be32]),
      show (28 : Nat) = 4 + 24 from by norm_num, ← List.drop_drop,
      List.drop_left' (by simp [Hash.be32]),
      show (24 : Nat) = 4 + 20 from by norm_num, ← List.drop_drop,
      List.drop_left' (by simp [Hash.be32]),
      show (20 : Nat) = 4 + 16 from by norm_num, ← List.drop_drop,
      List.drop_left' (by simp [Hash.be32]),
      show (16 : Nat) = 4 + 12 from by norm_num, ← List.drop_drop,
      List.drop_left' (by simp [Hash.be32]),
      show (12 : Nat) = 4 + 8 from by norm_num, ← List.drop_drop,
      List.drop_left' (by simp [Hash.be32]),
      show (8 : Nat) = 4 + 4 from by norm_num, ← List.drop_drop,
      List.drop_left' (by simp [Hash.be32]),
      List.drop_left' (by simp [Hash.be32]),
      List.take_left' hbufd]
  · rw [show (100 : Nat) = 36 + 64 from by norm_num, ← List.drop_drop,
      show (36 : Nat) = 4 + 32 from by norm_num, ← List.drop_drop,
      ed, List.drop_left' hmlen,
      show (32 : Nat) = 4 + 28 from by norm_num, ← List.drop_drop,
      List.drop_left' (by simp [Hash.be32]),
      show (28 : Nat) = 4 + 24 from by norm_num, ← List.drop_drop,
      List.drop_left' (by simp [Hash.be32]),
      show (24 : Nat) = 4 + 20 from by norm_num, ← List.drop_drop,
      List.drop_left' (by simp [Hash.be32]),
      show (20 : Nat) = 4 + 16 from by norm_num, ← List.drop_drop,
      List.drop_left' (by simp [Hash.be32]),
      show (16 : Nat) = 4 + 12 from by norm_num, ← List.drop_drop,
      List.drop_left' (by simp [Hash.be32]),
      show (12 : Nat) = 4 + 8 from by norm_num, ← List.drop_drop,
      List.drop_left' (by simp [Hash.be32]),
      show (8 : Nat) = 4 + 4 from by norm_num, ← List.drop_drop,
      List.drop_left' (by simp [Hash.be32]),
      List.drop_left' (by simp [Hash.be32]),
      List.drop_left' hbufd]

/-- Witness for C6 (amended) at fresh MD5 and SHA-256 digests. -/
theorem serialized_blob_layout_witness :
    (MD5.New.x.length = 64 ∧ MD5.New.nx ≤ 64 ∧
      SHA256.New.x.length = 64 ∧ SHA256.New.nx ≤ 64) ∧
    (MD5.MarshalBinary MD5.New).length = 92 ∧
    (SHA256.MarshalBinary SHA256.New).length = 108 :=
  ⟨⟨by decide, by decide, by decide, by decide⟩,
    (serialized_blob_layout MD5.New SHA256.New
      (by decide) (by decide) (by decide) (by decide)).1,
    (serialized_blob_layout MD5.New SHA256.New
      (by decide) (by decide) (by decide) (by decide)).2.2.2.2.2.2.1⟩

/-- C7: Buffer-fill invariant.  On every state reachable through the
exported API (constructor, `Reset`, `Write`, `Sum`, successful import),
the buffer fill count equals the running byte count modulo the 64-byte
block size and is strictly below the block size. -/
theorem buffer_fill_invariant (f : List Nat → List Nat → List Nat) :
    (∀ d : Hash.Core, MD5.Reachable f d → d.nx = d.len % 64 ∧ d.nx < 64) ∧
    (∀ d : SHA256.Digest, SHA256.Reachable f d → d.nx = d.len % 64 ∧ d.nx < 64) := by
  constructor
  · intro d hd
    obtain ⟨_, hlt, heq⟩ := md5_reachable_wf f d hd
    exact ⟨heq, hlt⟩
  · intro d hd
    obtain ⟨_, hlt, heq⟩ := sha_reachable_wf f d hd
    exact ⟨heq, hlt⟩

/-- Witness for C7 at a concrete block function and freshly written states. -/
theorem buffer_fill_invariant_witness :
    (MD5.Reachable cf4 (Hash.write cf4 MD5.New [1, 2, 3]) ∧
      SHA256.Reachable cf8 (SHA256.write cf8 SHA256.New [1, 2, 3])) ∧
    ((Hash.write cf4 MD5.New [1, 2, 3]).nx =
        (Hash.write cf4 MD5.New [1, 2, 3]).len % 64 ∧
      (Hash.write cf4 MD5.New [1, 2, 3]).nx < 64) ∧
    ((SHA256.write cf8 SHA256.New [1, 2, 3]).nx =
        (SHA256.write cf8 SHA256.New [1, 2, 3]).len % 64 ∧
      (SHA256.write cf8 SHA256.New [1, 2, 3]).nx < 64) :=
  ⟨⟨MD5.Reachable.write _ _ MD5.Reachable.new,
    SHA256.Reachable.write _ _ SHA256.Reachable.new⟩,
    (buffer_fill_invariant cf4).1 _ (MD5.Reachable.write _ _ MD5.Reachable.new),
    (buffer_fill_invariant cf8).2 _ (SHA256.Reachable.write _ _ SHA256.Reachable.new)⟩

/-- C8: Finalization panic unreachability.  On every reachable state, the
padding push inside `checkSum` leaves the snapshot's fill count at zero,
so the `panic("d.nx != 0")` (modelled by `none`) is never triggered:
`checkSum` always returns a digest. -/
theorem finalization_no_panic (f : List Nat → List Nat → List Nat) :
    (∀ d : Hash.Core, MD5.Reachable f d → (MD5.checkSum f d).isSome) ∧
    (∀ d : SHA256.Digest, SHA256.Reachable f d → (SHA256.checkSum f d).isSome) := by
  constructor
  · intro d hd
    exact md5_checkSum_isSome f d (md5_reachable_wf f d hd)
  · intro d hd
    exact sha_checkSum_isSome f d (sha_reachable_wf f d hd)

/-- Witness for C8 at a concrete block function and written states. -/
theorem finalization_no_panic_witness :
    (MD5.Reachable cf4 (Hash.write cf4 MD5.New [1, 2, 3]) ∧
      SHA256.Reachable cf8 (SHA256.write cf8 SHA256.New224 [1, 2, 3])) ∧
    (MD5.checkSum cf4 (Hash.write cf4 MD5.New [1, 2, 3])).isSome ∧
    (SHA256.checkSum cf8 (SHA256.write cf8 SHA256.New224 [1, 2, 3])).isSome :=
  ⟨⟨MD5.Reachable.write _ _ MD5.Reachable.new,
    SHA256.Reachable.write _ _ SHA256.Reachable.new224⟩,
    (finalization_no_panic cf4).1 _ (MD5.Reachable.write _ _ MD5.Reachable.new),
    (finalization_no_panic cf8).2 _ (SHA256.Reachable.write _ _ SHA256.Reachable.new224)⟩

/-- C9: Import totality.  For every receiver state and every input byte
sequence — including the empty one and sequences shorter than the magic
tag — `UnmarshalBinary` returns normally (its panic-modelling `Option` is
always `some`): the length guard precedes all slicing and the exact-size
check precedes all field decoding. -/
theorem import_totality :
    (∀ (d : Hash.Core) (b : List Nat), (MD5.UnmarshalBinary d b).isSome) ∧
    (∀ (d : SHA256.Digest) (b : List Nat), (SHA256.UnmarshalBinary d b).isSome) := by
  constructor
  · intro d b
    by_cases h1 : b.length < 4 ∨ b.take 4 ≠ MD5.magicBytes
    · rw [MD5.UnmarshalBinary, if_pos h1]; rfl
    · by_cases h2 : b.length = MD5.marshaledSize
      · rw [md5_unmarshal_ok d b h1 h2]; rfl
      · rw [MD5.UnmarshalBinary, if_neg h1, if_pos h2]; rfl
  · intro d b
    by_cases h1 : b.length < 4 ∨ (d.is224 ∧ b.take 4 ≠ SHA256.magic224) ∨
        (¬d.is224 ∧ b.take 4 ≠ SHA256.magic256)
    · rw [SHA256.UnmarshalBinary, if_pos h1]; rfl
    · by_cases h2 : b.length = SHA256.marshaledSize
      · rw [sha_unmarshal_ok d b h1 h2]; rfl
      · rw [SHA256.UnmarshalBinary, if_neg h1, if_pos h2]; rfl

/-- C10: Import atomicity.  Whenever `UnmarshalBinary` returns an error,
the receiver is handed back exactly as it was: both validations complete
before any field is assigned. -/
theorem import_atomicity :
    (∀ (d d' : Hash.Core) (b : List Nat) (e : String),
      MD5.UnmarshalBinary d b = some (d', some e) → d' = d) ∧
    (∀ (d d' : SHA256.Digest) (b : List Nat) (e : String),
      SHA256.UnmarshalBinary d b = some (d', some e) → d' = d) := by
  constructor
  · intro d d' b e h
    by_cases h1 : b.length < 4 ∨ b.take 4 ≠ MD5.magicBytes
    · rw [MD5.UnmarshalBinary, if_pos h1, Option.some_inj] at h
      exact (congrArg Prod.fst h).symm
    · by_cases h2 : b.length = MD5.marshaledSize
      · rw [md5_unmarshal_ok d b h1 h2, Option.some_inj] at h
        exact absurd (congrArg Prod.snd h) (by simp)
      · rw [MD5.UnmarshalBinary, if_neg h1, if_pos h2, Option.some_inj] at h
        exact (congrArg Prod.fst h).symm
  · intro d d' b e h
    by_cases h1 : b.length < 4 ∨ (d.is224 ∧ b.take 4 ≠ SHA256.magic224) ∨
        (¬d.is224 ∧ b.take 4 ≠ SHA256.magic256)
    · rw [SHA256.UnmarshalBinary, if_pos h1, Option.some_inj] at h
      exact (congrArg Prod.fst h).symm
    · by_cases h2 : b.length = SHA256.marshaledSize
      · rw [sha_unmarshal_ok d b h1 h2, Option.some_inj] at h
        exact absurd (congrArg Prod.snd h) (by simp)
      · rw [SHA256.UnmarshalBinary, if_neg h1, if_pos h2, Option.some_inj] at h
        exact (congrArg Prod.fst h).symm

/-- Witness for C10: importing an empty blob fails with the identifier
error and leaves the fresh instances untouched. -/
theorem import_atomicity_witness :
    (MD5.UnmarshalBinary MD5.New [] = some (MD5.New, some MD5.identMsg) ∧
      SHA256.UnmarshalBinary SHA256.New [] = some (SHA256.New, some SHA256.identMsg)) ∧
    MD5.New = MD5.New ∧ SHA256.New = SHA256.New :=
  ⟨⟨by decide, by decide⟩,
    import_atomicity.1 MD5.New MD5.New [] MD5.identMsg (by decide),
    import_atomicity.2 SHA256.New SHA256.New [] SHA256.identMsg (by decide)⟩
